import Mathlib

/-!
# mackerel-plugin-memcached-lite: stats parsing, snapshots and rate metrics

A shallow embedding of `mackerel-plugin-memcached-lite.go`.

* Bytes are natural numbers (`10` is LF, `9` is TAB); a Go `[]byte` or `string`
  is a `List Nat`.  The functions below only compare bytes with ASCII
  constants, so nothing depends on the bound `< 256`.
* `int64` values are integers; every arithmetic operation of the program
  that can leave the 64-bit range is followed by `wrap64`.
* Functions of the Go standard library that the program calls
  (`strconv.ParseInt`, `regexp` on the one fixed pattern, `bytes.Split`,
  `encoding/csv`, `fmt` with `%d`) are transcribed from the library.
* The connection, the file system and the clock are explicit inputs
  (`ReadResult` scripts, `World`).
-/

namespace MemcachedLite

/-! ## Bytes and 64-bit integers -/

/-- The bytes of an ASCII string literal. -/
def ascii (s : String) : List Nat := s.toList.map Char.toNat

/-- Two's-complement wrap-around of an integer to the `int64` range. -/
def wrap64 (x : Int) : Int := (x + 2 ^ 63) % 2 ^ 64 - 2 ^ 63

/-- The `int64` subtraction `a - b` of Go. -/
def sub64 (a b : Int) : Int := wrap64 (a - b)

/-- The `int64` addition `a + b` of Go. -/
def add64 (a b : Int) : Int := wrap64 (a + b)

/-- The `int64` multiplication `a * b` of Go. -/
def mul64 (a b : Int) : Int := wrap64 (a * b)

/-! ## Errors -/

/-- The errors of `strconv` (`NumError.Err`). -/
inductive NumError where
  | ErrSyntax
  | ErrRange
  | ErrBase
  | ErrBitSize
  deriving DecidableEq, Repr

/-- The `error` values the program can see. `connErr` stands for any error of
the connection other than `io.EOF`, `fsErr` for any error of the file system. -/
inductive GoError where
  | EOF
  | connErr (code : Nat)
  | numErr (e : NumError)
  | ErrFieldCount
  | fsErr (code : Nat)
  deriving DecidableEq, Repr

/-! ## The map `map[string]int64` -/

/-- A Go `map[string]int64`: an association list with at most one entry per key. -/
abbrev Stats := List (List Nat × Int)

/-- The comma-ok lookup `v, ok := m[k]`. -/
def Stats.find (m : Stats) (k : List Nat) : Option Int := List.lookup k m

/-- The Go expression `m[k]`: the zero value when the key is missing. -/
def Stats.get (m : Stats) (k : List Nat) : Int := (m.find k).getD 0

/-- The Go statement `m[k] = v`. -/
def Stats.set (m : Stats) (k : List Nat) (v : Int) : Stats :=
  (k, v) :: m.filter (fun e => e.1 != k)

/-! ## `strconv.ParseInt` -/

/-- The `lower` of strconv: `c | ('x' - 'X')`. -/
def lower (c : Nat) : Nat := c ||| 32

/-- The digit loop of `strconv.ParseUint`. The result is `(n, underscores)`, or the
value and error of the early `return`. -/
def parseUintLoop (base : Nat) (base0 : Bool) (cutoff maxVal : Nat) :
    List Nat → Nat → Bool → Except (Nat × NumError) (Nat × Bool)
  | [], n, underscores => .ok (n, underscores)
  | c :: cs, n, underscores =>
    if c = 95 ∧ base0 = true then
      parseUintLoop base base0 cutoff maxVal cs n true
    else
      let d? : Option Nat :=
        if 48 ≤ c ∧ c ≤ 57 then some (c - 48)
        else if 97 ≤ lower c ∧ lower c ≤ 122 then some (lower c - 97 + 10)
        else none
      match d? with
      | none => .error (0, NumError.ErrSyntax)
      | some d =>
        if d ≥ base then .error (0, NumError.ErrSyntax)
        else if n ≥ cutoff then .error (maxVal, NumError.ErrRange)
        else
          let n' := (n * base) % 2 ^ 64
          let n1 := (n' + d) % 2 ^ 64
          if n1 < n' ∨ n1 > maxVal then .error (maxVal, NumError.ErrRange)
          else parseUintLoop base base0 cutoff maxVal cs n1 underscores

/-- The scan of `strconv.underscoreOK` after the optional sign and base prefix;
`saw` is the last character class seen (`94` for `^`, `48` for `0`, `95` for `_`,
`33` for `!`). -/
def underscoreOKLoop (hex : Bool) : List Nat → Nat → Bool
  | [], saw => saw != 95
  | c :: cs, saw =>
    if (48 ≤ c ∧ c ≤ 57) ∨ (hex = true ∧ 97 ≤ lower c ∧ lower c ≤ 102) then
      underscoreOKLoop hex cs 48
    else if c = 95 then
      if saw ≠ 48 then false else underscoreOKLoop hex cs 95
    else if saw = 95 then false
    else underscoreOKLoop hex cs 33

/-- The function `strconv.underscoreOK`. -/
def underscoreOK (s0 : List Nat) : Bool :=
  let s := match s0 with
    | c :: cs => if c = 45 ∨ c = 43 then cs else s0
    | [] => s0
  match s with
  | 48 :: c :: rest =>
    if lower c = 98 ∨ lower c = 111 ∨ lower c = 120 then
      underscoreOKLoop (lower c == 120) rest 48
    else underscoreOKLoop false s 94
  | _ => underscoreOKLoop false s 94

/-- The base and the digits `strconv.ParseUint` settles on for `base == 0`:
a leading `0` selects base 2, 8 or 16 by the prefix `0b`, `0o`, `0x`, and base 8
otherwise. -/
def basePrefix (s : List Nat) : Nat × List Nat :=
  match s with
  | 48 :: rest =>
    match rest with
    | c :: d :: more =>
      if lower c = 98 then (2, d :: more)
      else if lower c = 111 then (8, d :: more)
      else if lower c = 120 then (16, d :: more)
      else (8, rest)
    | _ => (8, rest)
  | _ => (10, s)

/-- The function `strconv.ParseUint(s, base, bitSize)`: the value and the error. -/
def ParseUint (s : List Nat) (base : Nat) (bitSize : Nat) : Nat × Option NumError :=
  if s = [] then (0, some NumError.ErrSyntax)
  else
    let base0 := base == 0
    let sel : Option (Nat × List Nat) :=
      if 2 ≤ base ∧ base ≤ 36 then some (base, s)
      else if base = 0 then some (basePrefix s)
      else none
    match sel with
    | none => (0, some NumError.ErrBase)
    | some (b, digits) =>
      if bitSize > 64 then (0, some NumError.ErrBitSize)
      else
        let bits := if bitSize = 0 then 64 else bitSize
        let cutoff := (2 ^ 64 - 1) / b + 1
        let maxVal := 2 ^ bits - 1
        match parseUintLoop b base0 cutoff maxVal digits 0 false with
        | .error (v, e) => (v, some e)
        | .ok (n, underscores) =>
          if underscores = true ∧ underscoreOK s = false then (0, some NumError.ErrSyntax)
          else (n, none)

/-- The function `strconv.ParseInt(s, base, bitSize)`: the value and the error. -/
def ParseInt (s : List Nat) (base : Nat) (bitSize : Nat) : Int × Option NumError :=
  match s with
  | [] => (0, some NumError.ErrSyntax)
  | c :: cs =>
    let neg := c == 45
    let s1 := if c = 43 ∨ c = 45 then cs else s
    let r := ParseUint s1 base bitSize
    if r.2 ≠ none ∧ r.2 ≠ some NumError.ErrRange then (0, r.2)
    else
      let bits := if bitSize = 0 then 64 else bitSize
      let cutoff : Nat := 2 ^ (bits - 1)
      if neg = false ∧ r.1 ≥ cutoff then ((cutoff : Int) - 1, some NumError.ErrRange)
      else if neg = true ∧ r.1 > cutoff then (-(cutoff : Int), some NumError.ErrRange)
      else
        let n := wrap64 (r.1 : Int)
        (if neg then wrap64 (-n) else n, none)

/-! ## The stats parser: lines 60-70 of `fetchStats` -/

/-- The function `bytes.Split(buf, []byte("\n"))`. -/
def splitLF : List Nat → List (List Nat)
  | [] => [[]]
  | c :: cs =>
    if c = 10 then [] :: splitLF cs
    else
      match splitLF cs with
      | [] => [[c]]
      | l :: ls => (c :: l) :: ls

/-- The character class `[a-z_]`. -/
def isNameByte (c : Nat) : Bool := (decide (97 ≤ c) && decide (c ≤ 122)) || c == 95

/-- The character class `\d`. -/
def isDigitByte (c : Nat) : Bool := decide (48 ≤ c) && decide (c ≤ 57)

/-- Removes the literal `lit` from the front of `s`, if it is there. -/
def dropLiteral : List Nat → List Nat → Option (List Nat)
  | [], s => some s
  | _ :: _, [] => none
  | a :: lit, c :: s => if a = c then dropLiteral lit s else none

/-- The submatches 1 and 2 of the pattern `^STAT ([a-z_]+) (\d+)` on `line`
(`FindStringSubmatch`), or `none` when the pattern does not match. Both groups are
greedy and each is followed by a byte outside its class, so each group is the
longest run of its class. The pattern has no anchor at its end. -/
def matchStat (line : List Nat) : Option (List Nat × List Nat) :=
  match dropLiteral (ascii "STAT ") line with
  | none => none
  | some rest =>
    let name := rest.takeWhile isNameByte
    match name, rest.dropWhile isNameByte with
    | _ :: _, 32 :: rest2 =>
      let value := rest2.takeWhile isDigitByte
      if value = [] then none else some (name, value)
    | _, _ => none

/-- The loop of `fetchStats` over the lines of the response. The map is updated
in place, so the entries stored before a failing line stay in it. -/
def fetchStatsLines : List (List Nat) → Stats → Stats × Option GoError
  | [], stats => (stats, none)
  | b :: bs, stats =>
    match matchStat b with
    | none => fetchStatsLines bs stats
    | some (name, value) =>
      match ParseInt value 0 64 with
      | (_, some e) => (stats, some (GoError.numErr e))
      | (i, none) => fetchStatsLines bs (stats.set name i)

/-- The part of `fetchStats` after `slurp` has returned `buf` without error. -/
def fetchStatsBytes (buf : List Nat) (stats : Stats) : Stats × Option GoError :=
  fetchStatsLines (splitLF buf) stats

/-! ## The protocol reader: `slurp` and `fetchStats` -/

/-- One call `conn.Read(tmpBuf)`: the bytes it stored in `tmpBuf` (so `i` is their
number) and the error it returned. -/
structure ReadResult where
  data : List Nat
  err : Option GoError
  deriving DecidableEq, Repr

/-- The chunk size of `slurp`. -/
def readLimit : Nat := 32 * 1024

/-- The loop of `slurp` over the successive results of `conn.Read`; `buf` is the
accumulated response. The result is the pair returned by `slurp` and the reads
left on the connection; `none` when the listed reads end before the loop returns. -/
def slurpLoop : List ReadResult → List Nat →
    Option ((List Nat × Option GoError) × List ReadResult)
  | [], _ => none
  | r :: rs, buf =>
    let i := r.data.length
    let buf := if i > 0 then buf ++ r.data else buf
    if r.err = some GoError.EOF ∨ i < readLimit then some ((buf, none), rs)
    else if r.err ≠ none then some ((buf, r.err), rs)
    else slurpLoop rs buf

/-- The function `slurp`, on the results of the connection's reads. -/
def slurp (reads : List ReadResult) : Option ((List Nat × Option GoError) × List ReadResult) :=
  slurpLoop reads []

/-- The function `fetchStats`: the map after the call, the error returned, and the
reads left on the connection. -/
def fetchStats (reads : List ReadResult) (stats : Stats) :
    Option ((Stats × Option GoError) × List ReadResult) :=
  match slurp reads with
  | none => none
  | some ((_, some e), rest) => some ((stats, some e), rest)
  | some ((buf, none), rest) => some (fetchStatsBytes buf stats, rest)

/-! ## The snapshot store: `writeStats` and `loadStats` -/

/-- Decimal digits of `n`, most significant first, in front of `acc`. -/
def fmtNatAux : Nat → Nat → List Nat → List Nat
  | 0, _, acc => acc
  | fuel + 1, n, acc =>
    if n / 10 = 0 then (48 + n % 10) :: acc
    else fmtNatAux fuel (n / 10) ((48 + n % 10) :: acc)

/-- The verb `%d` on a non-negative integer. -/
def fmtNat (n : Nat) : List Nat := fmtNatAux (n + 1) n []

/-- The verb `%d` on an `int64`. -/
def fmtInt (v : Int) : List Nat :=
  if v < 0 then 45 :: fmtNat (-v).toNat else fmtNat v.toNat

/-- One line of `writeStats`: `fmt.Sprintf("%s\t%d\n", k, v)`. -/
def statLine (e : List Nat × Int) : List Nat := e.1 ++ 9 :: (fmtInt e.2 ++ [10])

/-- The bytes `writeStats` puts in the file when `range stats` visits the entries
in the order `order` (Go leaves the order of a map iteration unspecified). -/
def writeStatsBytes (order : Stats) : List Nat := (order.map statLine).flatten

/-- The function `writeStats` on a file system where `os.Create` returns
`createErr`: the error returned and, when the file was created, the map written
to it. The results of `WriteString` are dropped by the code. -/
def writeStats (createErr : Option GoError) (stats : Stats) : Option GoError × Option Stats :=
  match createErr with
  | some e => (some e, none)
  | none => (none, some stats)

/-- The call `ReadSlice('\n')` of bufio: the bytes up to and including the first LF
(all of them when there is none) and the rest of the input. -/
def readSlice : List Nat → List Nat × List Nat
  | [] => ([], [])
  | c :: cs => if c = 10 then ([10], cs) else (c :: (readSlice cs).1, (readSlice cs).2)

/-- The function `lengthNL` of encoding/csv. -/
def lengthNL (line : List Nat) : Nat := if line.getLast? = some 10 then 1 else 0

/-- The method `readLine` of the csv reader: the line, whether the error is
`io.EOF`, and the rest of the input. A final line without LF loses a trailing CR
and is returned without error; `\r\n` at the end of a line becomes `\n`. -/
def readLine (input : List Nat) : (List Nat × Bool) × List Nat :=
  let line := (readSlice input).1
  let eof := decide (line.getLast? ≠ some 10)
  let line1 := if eof = true ∧ line.getLast? = some 13 then line.dropLast else line
  let line2 :=
    if line1.getLast? = some 10 ∧ line1.dropLast.getLast? = some 13 then
      line1.dropLast.dropLast ++ [10]
    else line1
  ((line2, eof && line.isEmpty), (readSlice input).2)

/-- The first loop of `readRecord`: reads lines until one is not empty. `some none`
is the return with `io.EOF`, `some (some (line, rest))` the first line that is not
empty and the input after it; `none` when the fuel runs out. No comment character
is set. -/
def skipEmptyLines : Nat → List Nat → Option (Option (List Nat × List Nat))
  | 0, _ => none
  | fuel + 1, input =>
    let r := readLine input
    if r.1.2 = true then some none
    else if r.1.1.length = lengthNL r.1.1 then skipEmptyLines fuel r.2
    else some (some (r.1.1, r.2))

/-- The index of the first byte `b` of `line` (`bytes.IndexByte`, and
`bytes.IndexRune` for an ASCII rune). -/
def indexByte (b : Nat) : List Nat → Option Nat
  | [] => none
  | c :: cs => if c = b then some 0 else (indexByte b cs).map (· + 1)

/-- The loop `parseField` of `readRecord` with `Comma = '\t'`, `LazyQuotes = true`
and `TrimLeadingSpace = false`. `cur = none` is the top of the loop; `cur = some f`
is the inner loop of a quoted field whose bytes so far are `f`. The result is the
record and the input left. -/
def parseFieldLoop : Nat → List Nat → List Nat → List (List Nat) → Option (List Nat) →
    Option (List (List Nat) × List Nat)
  | 0, _, _, _, _ => none
  | fuel + 1, line, input, fields, none =>
    if line.head? ≠ some 34 then
      match indexByte 9 line with
      | some i => parseFieldLoop fuel (line.drop (i + 1)) input (fields ++ [line.take i]) none
      | none => some (fields ++ [line.take (line.length - lengthNL line)], input)
    else parseFieldLoop fuel (line.drop 1) input fields (some [])
  | fuel + 1, line, input, fields, some f =>
    match indexByte 34 line with
    | some i =>
      let f1 := f ++ line.take i
      let line1 := line.drop (i + 1)
      if line1.head? = some 34 then
        parseFieldLoop fuel (line1.drop 1) input fields (some (f1 ++ [34]))
      else if line1.head? = some 9 then
        parseFieldLoop fuel (line1.drop 1) input (fields ++ [f1]) none
      else if lengthNL line1 = line1.length then some (fields ++ [f1], input)
      else parseFieldLoop fuel line1 input fields (some (f1 ++ [34]))
    | none =>
      if line.length > 0 then
        parseFieldLoop fuel (readLine input).1.1 (readLine input).2 fields (some (f ++ line))
      else some (fields ++ [f], input)

/-- The state of a `csv.Reader`: the input not yet read and `FieldsPerRecord`. -/
structure CsvReader where
  input : List Nat
  fieldsPerRecord : Nat
  deriving DecidableEq, Repr

/-- The method `Read` of the csv reader built by `loadStats`: the record, the error,
and the reader after the call. `none` when the fuel of the loops runs out. -/
def csvRead (fuel : Nat) (r : CsvReader) :
    Option ((List (List Nat) × Option GoError) × CsvReader) :=
  match skipEmptyLines fuel r.input with
  | none => none
  | some none => some (([], some GoError.EOF), { r with input := [] })
  | some (some (line, rest)) =>
    match parseFieldLoop (line.length + rest.length + 1) line rest [] none with
    | none => none
    | some (record, rest1) =>
      if r.fieldsPerRecord > 0 then
        if record.length ≠ r.fieldsPerRecord then
          some ((record, some GoError.ErrFieldCount), { r with input := rest1 })
        else some ((record, none), { r with input := rest1 })
      else some ((record, none), { input := rest1, fieldsPerRecord := record.length })

/-- How a call of `loadStats` ends: it returns `err` with the map as it is then, or
the index expression `record[1]` is out of range and the program panics. -/
inductive LoadResult where
  | returned (stats : Stats) (err : Option GoError)
  | indexPanic (stats : Stats) (record : List (List Nat))
  deriving DecidableEq, Repr

/-- The loop of `loadStats` over the records of the file. The code reads `record[1]`
without a look at the length of the record. -/
def loadStatsLoop : Nat → CsvReader → Stats → Option LoadResult
  | 0, _, _ => none
  | fuel + 1, r, stats =>
    match csvRead (r.input.length + 1) r with
    | none => none
    | some ((record, err), r1) =>
      if err = some GoError.EOF then some (LoadResult.returned stats none)
      else if err ≠ none then some (LoadResult.returned stats err)
      else
        match record with
        | f0 :: f1 :: _ =>
          match ParseInt f1 0 64 with
          | (_, some e) => some (LoadResult.returned stats (some (GoError.numErr e)))
          | (i, none) => loadStatsLoop fuel r1 (stats.set f0 i)
        | _ => some (LoadResult.indexPanic stats record)

/-- The function `loadStats` on a file that `os.Open` opened and whose content is
`content`. -/
def loadStatsBytes (content : List Nat) (stats : Stats) : Option LoadResult :=
  loadStatsLoop (content.length + 1) { input := content, fieldsPerRecord := 0 } stats

/-- The function `loadStats`: `file` is the result of `os.Open`. -/
def loadStats (file : Except GoError (List Nat)) (stats : Stats) : Option LoadResult :=
  match file with
  | .error e => some (LoadResult.returned stats (some e))
  | .ok content => loadStatsBytes content stats

/-! ## The orchestrator: `memcachedStats`, `memcachedDef`, `_main` -/

/-- The type `connectionOpts`, without the field `Timeout` (a `float64`): it only sets
deadlines on the connection (`time.Duration(timeout)` keeps the whole seconds), and
a deadline that passes shows up as the error of a read or a write. -/
structure connectionOpts where
  Host : List Nat
  Port : List Nat
  deriving DecidableEq, Repr

/-- The file name `memcachedStats` hands to `filepath.Join` after the temporary
directory: `curUser.Uid + fmt.Sprintf("-mackerel-plugin-memcached-lite-%s-%s", Host, Port)`.
The file at the resulting path `prevPath` is the field `snapshot` of `World`. -/
def prevPathName (uid : List Nat) (opts : connectionOpts) : List Nat :=
  uid ++ (ascii "-mackerel-plugin-memcached-lite-" ++ opts.Host ++ ascii "-" ++ opts.Port)

/-- The value printed in a metric line: `int v` is `%d` of `v`, `float v` is `%f` of
`float64(v)`, and `quot num den` is `%f` of `float64(num)/float64(den)`. The two
operands are the `int64` values the program converts; the floating-point
conversion, division and formatting are not evaluated. -/
inductive MetricValue where
  | int (v : Int)
  | float (v : Int)
  | quot (num den : Int)
  deriving DecidableEq, Repr

/-- The exact quotient whose `float64` rounding a `quot` value prints. -/
def MetricValue.toRat : MetricValue → ℚ
  | MetricValue.int v => v
  | MetricValue.float v => v
  | MetricValue.quot num den => (num : ℚ) / (den : ℚ)

/-- What the program writes on standard output: a metric line
`name<TAB>value<TAB>time<LF>`, or the JSON text of `memcachedDef`. -/
inductive Out where
  | metric (name : String) (value : MetricValue) (time : Int)
  | graphDefs
  deriving DecidableEq, Repr

/-- How a run ends: with the lines written on standard output, the map written to
the snapshot file (if `writeStats` created the file) and the status `st`; or with
a panic. Messages on standard error are left out. -/
inductive Run where
  | exited (stdout : List Out) (saved : Option Stats) (st : Int)
  | panicked
  deriving DecidableEq, Repr

/-- Whether a line of standard output is a metric line of the name `n`. -/
def Out.named (n : String) : Out → Bool
  | Out.metric name _ _ => name == n
  | Out.graphDefs => false

/-- The lines a run wrote on standard output (none when it panicked). -/
def Run.stdout : Run → List Out
  | Run.exited stdout _ _ => stdout
  | Run.panicked => []

/-- What a run of `memcachedStats` meets outside the program. -/
structure World where
  /-- The error of `net.Dial` -/
  dialErr : Option GoError
  /-- The error of the write of `stats\r\n` -/
  writeErr1 : Option GoError
  /-- The error of the write of `stats settings\r\n` -/
  writeErr2 : Option GoError
  /-- The results of the successive reads on the connection -/
  reads : List ReadResult
  /-- The `Uid` of the user returned by `user.Current()`, `none` when it fails -/
  currentUser : Option (List Nat)
  /-- The value of `time.Now().Unix()` -/
  now : Int
  /-- The file at `prevPath`: `none` when `os.Stat` fails, else the result of `os.Open` -/
  snapshot : Option (Except GoError (List Nat))
  /-- The error of `os.Create(prevPath)` -/
  createErr : Option GoError
  /-- The order in which `range m` visits the four rate metrics -/
  rangeOrder : List (String × List Nat)

/-- The map `m` of `memcachedStats`: metric name and the counter it is computed from. -/
def rateTable : List (String × List Nat) :=
  [("req-per-sec.get", ascii "cmd_get"), ("req-per-sec.set", ascii "cmd_set"),
   ("eviction-per-sec.total", ascii "evictions"),
   ("eviction-per-sec.unfetched", ascii "evicted_unfetched")]

/-- The `gap`, `hits` and `misses` of `memcachedStats`: the difference to the
previous value, replaced by the current value when it is negative. -/
def gapOf (stats prev : Stats) (skey : List Nat) : Int :=
  if sub64 (stats.get skey) (prev.get skey) < 0 then stats.get skey
  else sub64 (stats.get skey) (prev.get skey)

/-- The line printed by one turn of the loop over `m`. -/
def rateLine (stats prev : Stats) (period now : Int) (e : String × List Nat) : Out :=
  Out.metric ("memcached-lite." ++ e.1) (MetricValue.quot (gapOf stats prev e.2) period) now

/-- The line of the cache hit rate. -/
def hitRateLine (stats prev : Stats) (now : Int) : Out :=
  let hits := gapOf stats prev (ascii "get_hits")
  let misses := gapOf stats prev (ascii "get_misses")
  if add64 hits misses ≤ 0 then
    Out.metric "memcached-lite.cache-hit.rate" (MetricValue.float 0) now
  else
    Out.metric "memcached-lite.cache-hit.rate"
      (MetricValue.quot (mul64 hits 100) (add64 hits misses)) now

/-- The lines `memcachedStats` prints once both snapshots are there, in order. -/
def metricLines (stats prev : Stats) (now : Int) (rangeOrder : List (String × List Nat)) :
    List Out :=
  let period := sub64 (stats.get (ascii "_time_")) (prev.get (ascii "_time_"))
  [Out.metric "memcached-lite.cache-usage-byte.used"
     (MetricValue.int (stats.get (ascii "bytes"))) now,
   Out.metric "memcached-lite.cache-usage-byte.max"
     (MetricValue.int (stats.get (ascii "limit_maxbytes"))) now,
   Out.metric "memcached-lite.cache-items.current"
     (MetricValue.int (stats.get (ascii "curr_items"))) now]
  ++ rangeOrder.map (rateLine stats prev period now)
  ++ [hitRateLine stats prev now,
      Out.metric "memcached-lite.connections.current"
        (MetricValue.int (stats.get (ascii "curr_connections"))) now,
      Out.metric "memcached-lite.connections.max"
        (MetricValue.int (stats.get (ascii "maxconns"))) now]

/-- The part of `memcachedStats` after the two fetches: lines 151-225, with `stats`
the map filled by the two calls of `fetchStats`. The error of `user.Current()` is
dropped by the code, so `curUser.Uid` dereferences a nil pointer when it fails. -/
def compareAndSave (w : World) (stats0 : Stats) : Option Run :=
  match w.currentUser with
  | none => some Run.panicked
  | some _ =>
    let now := w.now
    let stats := stats0.set (ascii "_time_") now
    match w.snapshot with
    | none =>
      match writeStats w.createErr stats with
      | (some _, _) => some (Run.exited [] none 0)
      | (none, saved) => some (Run.exited [] saved 1)
    | some file =>
      match loadStats file [] with
      | none => none
      | some (LoadResult.indexPanic _ _) => some Run.panicked
      | some (LoadResult.returned _ (some _)) => some (Run.exited [] none 0)
      | some (LoadResult.returned prev none) =>
        let lines := metricLines stats prev now w.rangeOrder
        match writeStats w.createErr stats with
        | (some _, _) => some (Run.exited lines none 0)
        | (none, saved) => some (Run.exited lines saved 0)

/-- The function `memcachedStats`. `none` when the listed reads of the connection
end before `slurp` returns. -/
def memcachedStats (w : World) : Option Run :=
  if w.dialErr ≠ none then some (Run.exited [] none 0)
  else if w.writeErr1 ≠ none then some (Run.exited [] none 0)
  else
    match fetchStats w.reads [] with
    | none => none
    | some ((_, some _), _) => some (Run.exited [] none 0)
    | some ((stats1, none), reads1) =>
      if w.writeErr2 ≠ none then some (Run.exited [] none 0)
      else
        match fetchStats reads1 stats1 with
        | none => none
        | some ((_, some _), _) => some (Run.exited [] none 0)
        | some ((stats2, none), _) => compareAndSave w stats2

/-- The function `memcachedDef`: prints the graph definitions and returns `0`. -/
def memcachedDef : Run := Run.exited [Out.graphDefs] none 0

/-- The function `_main`, whose status `main` passes to `os.Exit`: `flagsErr` is the
error of `psr.Parse()`, `metaEnv` the value of `MACKEREL_AGENT_PLUGIN_META`. What
go-flags itself prints is left out. -/
def _main (flagsErr : Bool) (metaEnv : List Nat) (w : World) : Option Run :=
  if flagsErr = true then some (Run.exited [] none 1)
  else if metaEnv ≠ [] then some memcachedDef
  else memcachedStats w

/-! ## Notions used to state the properties of the parser -/

/-- A line begins with `STAT `, a name of one or more bytes of `[a-z_]`, one space
and one or more decimal digits. -/
def beginsWithStat (line : List Nat) : Prop :=
  ∃ name value rest, name ≠ [] ∧ (∀ c ∈ name, isNameByte c = true) ∧
    value ≠ [] ∧ (∀ c ∈ value, isDigitByte c = true) ∧
    line = ascii "STAT " ++ name ++ 32 :: value ++ rest

/-- The names captured by the pattern on a list of lines. -/
def keysOf (lines : List (List Nat)) : List (List Nat) :=
  lines.filterMap (fun l => (matchStat l).map Prod.fst)

/-- The keys a response sets: the names of its lines that the pattern matches. -/
def statKeys (buf : List Nat) : List (List Nat) := keysOf (splitLF buf)

/-- Every value of a map is a non-negative `int64`. -/
def Stats.inRange (m : Stats) : Prop := ∀ k, 0 ≤ m.get k ∧ m.get k < 2 ^ 63

/-- The delta of the specification, in exact integers: `current[key] - previous[key]`
if that difference is `>= 0`, and `current[key]` otherwise; a missing key reads as
`0`. -/
def specDelta (cur prev : Stats) (key : List Nat) : Int :=
  if 0 ≤ cur.get key - prev.get key then cur.get key - prev.get key else cur.get key

/-- The period of the specification, in exact integers:
`current[_time_] - previous[_time_]`. -/
def specPeriod (cur prev : Stats) : Int :=
  cur.get (ascii "_time_") - prev.get (ascii "_time_")

/-- The number a digit string denotes in base `base`. -/
def digitsValue (base : Nat) (ds : List Nat) : Nat :=
  ds.foldl (fun n c => n * base + (c - 48)) 0

/-! ## Maps and runs used in the statements -/

/-- The map `loadStats` builds from the lines written for the entries `es`. -/
def insertAll (es : Stats) (acc : Stats) : Stats :=
  es.foldl (fun m e => m.set e.1 e.2) acc

/-- A first run: the server answers both commands, no snapshot file exists. -/
def bootstrapWorld : World :=
  { dialErr := none, writeErr1 := none, writeErr2 := none,
    reads := [{ data := ascii "STAT cmd_get 160\r\nEND\r\n", err := none },
              { data := ascii "STAT maxconns 1024\r\nEND\r\n", err := none }],
    currentUser := some (ascii "1000"), now := 1700000060, snapshot := none,
    createErr := none, rangeOrder := rateTable }

/-- The run of the end-to-end example: a previous snapshot 60 seconds old with
`cmd_get = 100`, and a server that answers `cmd_get 160`. -/
def exampleWorld : World :=
  { dialErr := none, writeErr1 := none, writeErr2 := none,
    reads := [{ data := ascii ("STAT bytes 1000\r\nSTAT limit_maxbytes 2000\r\n" ++
                  "STAT cmd_get 160\r\nEND\r\n"), err := none },
              { data := ascii "STAT maxconns 1024\r\nEND\r\n", err := none }],
    currentUser := some (ascii "1000"), now := 1700000060,
    snapshot := some (.ok (ascii "cmd_get\t100\n_time_\t1700000000\n")),
    createErr := none, rangeOrder := rateTable }

/-- The current snapshot of the run in `exampleWorld`. -/
def exampleCur : Stats :=
  [(ascii "_time_", 1700000060), (ascii "maxconns", 1024), (ascii "cmd_get", 160),
   (ascii "limit_maxbytes", 2000), (ascii "bytes", 1000)]

/-- The previous snapshot of the run in `exampleWorld`. -/
def examplePrev : Stats := [(ascii "_time_", 1700000000), (ascii "cmd_get", 100)]

/-- A run against a server whose `cmd_set` counter is `5`, one minute after a
snapshot that holds `cmd_set = -9223372036854775807`. -/
def wrapWorld : World :=
  { dialErr := none, writeErr1 := none, writeErr2 := none,
    reads := [{ data := ascii "STAT cmd_set 5\r\nEND\r\n", err := none },
              { data := ascii "END\r\n", err := none }],
    currentUser := some (ascii "1000"), now := 1700000060,
    snapshot := some (.ok (ascii "cmd_set\t-9223372036854775807\n_time_\t1700000000\n")),
    createErr := none, rangeOrder := rateTable }

/-- The current snapshot of the run in `wrapWorld`. -/
def wrapCur : Stats := [(ascii "_time_", 1700000060), (ascii "cmd_set", 5)]

/-- The previous snapshot of the run in `wrapWorld`. -/
def wrapPrev : Stats :=
  [(ascii "_time_", 1700000000), (ascii "cmd_set", -9223372036854775807)]

/-- A run against a server whose `get_hits` counter is `10^17`, one minute after a
snapshot taken when the counters were `0`. -/
def overflowWorld : World :=
  { dialErr := none, writeErr1 := none, writeErr2 := none,
    reads := [{ data := ascii "STAT get_hits 100000000000000000\r\nSTAT get_misses 0\r\nEND\r\n",
                err := none },
              { data := ascii "END\r\n", err := none }],
    currentUser := some (ascii "1000"), now := 1700000060,
    snapshot := some (.ok (ascii "get_hits\t0\nget_misses\t0\n_time_\t1700000000\n")),
    createErr := none, rangeOrder := rateTable }

/-! ## Evaluation on the examples of the specification -/

theorem fetchStatsBytes_example :
    fetchStatsBytes (ascii "STAT foo 123\r\nSTAT bar 0\r\nEND\r\n") [] =
      ([(ascii "bar", 0), (ascii "foo", 123)], none) := by decide

theorem ParseInt_min_int64 :
    ParseInt (ascii "-9223372036854775808") 0 64 = (-9223372036854775808, none) := by decide

theorem ParseInt_out_of_range :
    ParseInt (ascii "9223372036854775808") 0 64 =
      (9223372036854775807, some NumError.ErrRange) := by decide

theorem ParseInt_hex_underscore : ParseInt (ascii "0x1_f") 0 64 = (31, none) := by decide

theorem ParseInt_bad_underscore :
    ParseInt (ascii "1__0") 0 64 = (0, some NumError.ErrSyntax) := by decide

theorem fetchStatsBytes_bad_octal :
    (fetchStatsBytes (ascii "STAT foo 08\r\n") []).2 =
      some (GoError.numErr NumError.ErrSyntax) := by
  decide

theorem fmtInt_examples :
    fmtInt 1700000000 = ascii "1700000000" ∧ fmtInt (-12) = ascii "-12" ∧
      fmtInt 0 = ascii "0" := by
  decide

theorem loadStatsBytes_example :
    loadStatsBytes (ascii "foo\t12\n_time_\t1700000000\n") [] =
      some (LoadResult.returned [(ascii "_time_", 1700000000), (ascii "foo", 12)] none) := by
  decide

theorem loadStatsBytes_field_count :
    loadStatsBytes (ascii "a\t1\nb\n") [] =
      some (LoadResult.returned [(ascii "a", 1)] (some GoError.ErrFieldCount)) := by decide

theorem loadStatsBytes_quoted :
    loadStatsBytes (ascii "\"a\nb\"\t1\r\n\r\n\"c\"\"d\" x\t2") [] =
      some (LoadResult.returned [(ascii "a\nb", 1)] (some GoError.ErrFieldCount)) := by decide

/-! ## The map -/

theorem lookup_filter_ne (m : Stats) (k k' : List Nat) (h : k' ≠ k) :
    List.lookup k' (m.filter (fun e => e.1 != k)) = List.lookup k' m := by
  induction m with
  | nil => rfl
  | cons e m ih =>
    obtain ⟨a, v⟩ := e
    by_cases hak : a = k
    · subst hak
      have hk : (k' == a) = false := by simpa using h
      simp [List.filter, List.lookup, hk, ih]
    · have hne : (a != k) = true := by simpa using hak
      simp only [List.filter, hne, List.lookup]
      rw [ih]

theorem find_set_self (m : Stats) (k : List Nat) (v : Int) : (m.set k v).find k = some v := by
  simp [Stats.set, Stats.find, List.lookup]

theorem find_set_ne (m : Stats) (k k' : List Nat) (v : Int) (h : k' ≠ k) :
    (m.set k v).find k' = m.find k' := by
  have hk : (k' == k) = false := by simpa using h
  simp only [Stats.set, Stats.find, List.lookup, hk]
  exact lookup_filter_ne m k k' h

/-! ## The pattern `^STAT ([a-z_]+) (\d+)` -/

theorem dropLiteral_append (lit s : List Nat) : dropLiteral lit (lit ++ s) = some s := by
  induction lit with
  | nil => cases s <;> rfl
  | cons a lit ih => simp [dropLiteral, ih]

theorem dropLiteral_some (lit s rest : List Nat) (h : dropLiteral lit s = some rest) :
    s = lit ++ rest := by
  induction lit generalizing s with
  | nil =>
    cases s <;> simp [dropLiteral] at h <;> simp [h]
  | cons a lit ih =>
    cases s with
    | nil => simp [dropLiteral] at h
    | cons c s =>
      simp only [dropLiteral] at h
      split at h
      · next hac => subst hac; simp [ih s h]
      · cases h

/-- A match of the pattern gives the shape of the line. -/
theorem matchStat_some (line name value : List Nat) (h : matchStat line = some (name, value)) :
    ∃ rest, line = ascii "STAT " ++ name ++ 32 :: value ++ rest ∧
      name ≠ [] ∧ (∀ c ∈ name, isNameByte c = true) ∧
      value ≠ [] ∧ (∀ c ∈ value, isDigitByte c = true) ∧
      (∀ d rest1, rest = d :: rest1 → isDigitByte d = false) := by
  unfold matchStat at h
  split at h
  · cases h
  · next rest hdrop =>
    have hline := dropLiteral_some _ _ _ hdrop
    simp only at h
    split at h
    · next c cs rest2 hname hrest =>
      split at h
      · cases h
      · next hval =>
        simp only [Option.some.injEq, Prod.mk.injEq] at h
        obtain ⟨hn, hv⟩ := h
        refine ⟨rest2.dropWhile isDigitByte, ?_, ?_, ?_, ?_, ?_, ?_⟩
        · rw [hline, ← hn, ← hv]
          have h1 := List.takeWhile_append_dropWhile isNameByte rest
          have h2 := List.takeWhile_append_dropWhile isDigitByte rest2
          rw [hrest] at h1
          rw [List.append_assoc, List.append_assoc]
          congr 1
          rw [List.cons_append, h2]
          exact h1.symm
        · rw [← hn, hname]; simp
        · intro x hx
          rw [← hn] at hx
          exact List.mem_takeWhile_imp hx
        · rw [← hv]; exact hval
        · intro x hx
          rw [← hv] at hx
          exact List.mem_takeWhile_imp hx
        · intro d rest1 hd
          have hpos : 0 < (rest2.dropWhile isDigitByte).length := by rw [hd]; simp
          have := List.dropWhile_get_zero_not isDigitByte rest2 hpos
          simp only [hd, List.get_eq_getElem, List.getElem_cons_zero] at this
          simpa using this
    · cases h

theorem matchStat_beginsWithStat (line : List Nat) (h : matchStat line ≠ none) :
    beginsWithStat line := by
  cases hm : matchStat line with
  | none => exact absurd hm h
  | some nv =>
    obtain ⟨name, value⟩ := nv
    obtain ⟨rest, hl, hn, hna, hv, hva, _⟩ := matchStat_some line name value hm
    exact ⟨name, value, rest, hn, hna, hv, hva, hl⟩

/-- The pattern matches a line made of `STAT `, a name, a space, a digit string and
a rest that does not start with a digit, and captures the name and the digits. -/
theorem matchStat_exact (name value tail : List Nat)
    (hn : name ≠ []) (hna : ∀ c ∈ name, isNameByte c = true)
    (hv : value ≠ []) (hva : ∀ c ∈ value, isDigitByte c = true)
    (htail : ∀ d rest, tail = d :: rest → isDigitByte d = false) :
    matchStat (ascii "STAT " ++ name ++ 32 :: value ++ tail) = some (name, value) := by
  have h32 : isNameByte 32 = false := by decide
  have htw : (name ++ 32 :: (value ++ tail)).takeWhile isNameByte = name := by
    rw [List.takeWhile_append_of_pos hna]
    simp [h32]
  have hdw : (name ++ 32 :: (value ++ tail)).dropWhile isNameByte = 32 :: (value ++ tail) := by
    rw [List.dropWhile_append_of_pos hna]
    simp [h32]
  have htv : (value ++ tail).takeWhile isDigitByte = value := by
    rw [List.takeWhile_append_of_pos hva]
    cases tail with
    | nil => simp
    | cons d rest => simp [htail d rest rfl]
  unfold matchStat
  simp only [List.append_assoc, List.cons_append, dropLiteral_append]
  rw [htw, hdw]
  cases name with
  | nil => exact absurd rfl hn
  | cons c cs =>
    simp only [htv]
    simp [hv]

/-- The pattern matches every line that begins with `STAT `, a name, a space and a
digit. -/
theorem matchStat_begins (name : List Nat) (d : Nat) (rest : List Nat)
    (hn : name ≠ []) (hna : ∀ c ∈ name, isNameByte c = true) (hd : isDigitByte d = true) :
    matchStat (ascii "STAT " ++ name ++ 32 :: d :: rest) =
      some (name, d :: rest.takeWhile isDigitByte) := by
  have h := matchStat_exact name (d :: rest.takeWhile isDigitByte) (rest.dropWhile isDigitByte)
    hn hna (List.cons_ne_nil _ _)
    (by
      intro c hc
      rcases List.mem_cons.mp hc with h | h
      · rw [h]; exact hd
      · exact List.mem_takeWhile_imp h)
    (by
      intro d' r' hdr
      have hpos : 0 < (rest.dropWhile isDigitByte).length := by rw [hdr]; simp
      have := List.dropWhile_get_zero_not isDigitByte rest hpos
      simp only [hdr, List.get_eq_getElem, List.getElem_cons_zero] at this
      simpa using this)
  simpa [List.takeWhile_append_dropWhile] using h

theorem beginsWithStat_iff (line : List Nat) : beginsWithStat line ↔ matchStat line ≠ none := by
  constructor
  · rintro ⟨name, value, rest, hn, hna, hv, hva, hl⟩
    cases value with
    | nil => exact absurd rfl hv
    | cons d v =>
      have := matchStat_begins name d (v ++ rest) hn hna (hva d (List.mem_cons_self _ _))
      have e : line = ascii "STAT " ++ name ++ 32 :: d :: (v ++ rest) := by rw [hl]; simp
      rw [e, this]
      simp
  · exact matchStat_beginsWithStat line

/-- No line of `post` begins with `STAT `, the name, a space and a digit when the
pattern captures the name on none of them. -/
theorem no_later_line (post : List (List Nat)) (name : List Nat)
    (hn : name ≠ []) (hna : ∀ c ∈ name, isNameByte c = true) (h : name ∉ keysOf post) :
    ∀ l ∈ post, ∀ d rest, isDigitByte d = true →
      l ≠ ascii "STAT " ++ name ++ 32 :: d :: rest := by
  intro l hl d rest hd heq
  apply h
  simp only [keysOf, List.mem_filterMap, Option.map_eq_some', Prod.exists]
  exact ⟨l, hl, name, d :: rest.takeWhile isDigitByte,
    by rw [heq]; exact matchStat_begins name d rest hn hna hd, rfl⟩

/-! ## `strconv.ParseInt` on digit strings -/

theorem wrap64_of_range (x : Int) (h : -2 ^ 63 ≤ x) (h2 : x < 2 ^ 63) : wrap64 x = x := by
  unfold wrap64
  omega

theorem isDigitByte_iff (c : Nat) : isDigitByte c = true ↔ 48 ≤ c ∧ c ≤ 57 := by
  simp [isDigitByte]

theorem lower_digit (c : Nat) (h : isDigitByte c = true) : lower c = c := by
  obtain ⟨h1, h2⟩ := (isDigitByte_iff c).mp h
  unfold lower
  interval_cases c <;> rfl

/-- One turn of the digit loop on a decimal digit. -/
theorem parseUintLoop_cons_digit (b : Nat) (b0 : Bool) (cutoff maxVal c : Nat) (cs : List Nat)
    (n : Nat) (us : Bool) (hc : isDigitByte c = true) :
    parseUintLoop b b0 cutoff maxVal (c :: cs) n us =
      if c - 48 ≥ b then .error (0, NumError.ErrSyntax)
      else if n ≥ cutoff then .error (maxVal, NumError.ErrRange)
      else if (n * b % 2 ^ 64 + (c - 48)) % 2 ^ 64 < n * b % 2 ^ 64 ∨
          (n * b % 2 ^ 64 + (c - 48)) % 2 ^ 64 > maxVal then
        .error (maxVal, NumError.ErrRange)
      else parseUintLoop b b0 cutoff maxVal cs ((n * b % 2 ^ 64 + (c - 48)) % 2 ^ 64) us := by
  obtain ⟨h1, h2⟩ := (isDigitByte_iff c).mp hc
  have h95 : c ≠ 95 := by omega
  simp only [parseUintLoop, h95, false_and, if_false, h1, h2, and_self, if_true]

/-- The digit loop on a digit string: it returns the number the digits denote, or
fails with a syntax error (value `0`) or a range error (value `2^64 - 1`). -/
theorem parseUintLoop_digits (b : Nat) (hb : 0 < b) (ds : List Nat) (n : Nat) (us : Bool)
    (hds : ∀ c ∈ ds, isDigitByte c = true) :
    match parseUintLoop b true ((2 ^ 64 - 1) / b + 1) (2 ^ 64 - 1) ds n us with
    | .ok (r, u) => r = ds.foldl (fun n c => n * b + (c - 48)) n ∧ u = us
    | .error (v, e) =>
      (e = NumError.ErrSyntax ∧ v = 0) ∨ (e = NumError.ErrRange ∧ v = 2 ^ 64 - 1) := by
  induction ds generalizing n with
  | nil => simp [parseUintLoop]
  | cons c cs ih =>
    have hc := hds c (List.mem_cons_self _ _)
    have hcs : ∀ x ∈ cs, isDigitByte x = true := fun x hx => hds x (List.mem_cons_of_mem _ hx)
    rw [parseUintLoop_cons_digit b true _ _ c cs n us hc]
    by_cases hbase : c - 48 ≥ b
    · rw [if_pos hbase]; simp
    · rw [if_neg hbase]
      by_cases hcut : n ≥ (2 ^ 64 - 1) / b + 1
      · rw [if_pos hcut]; simp
      · rw [if_neg hcut]
        have h1 : n ≤ (2 ^ 64 - 1) / b := by omega
        have h2 := (Nat.le_div_iff_mul_le hb).mp h1
        have h3 : n * b % 2 ^ 64 = n * b := Nat.mod_eq_of_lt (by omega)
        by_cases hov : (n * b % 2 ^ 64 + (c - 48)) % 2 ^ 64 < n * b % 2 ^ 64 ∨
            (n * b % 2 ^ 64 + (c - 48)) % 2 ^ 64 > 2 ^ 64 - 1
        · rw [if_pos hov]; simp
        · rw [if_neg hov]
          rw [h3] at hov ⊢
          have h4 : (n * b + (c - 48)) % 2 ^ 64 = n * b + (c - 48) := by
            obtain ⟨_, _⟩ := (isDigitByte_iff c).mp hc
            apply Nat.mod_eq_of_lt
            by_contra hge
            apply hov
            left
            omega
          rw [h4]
          have := ih (n * b + (c - 48)) hcs
          simpa [List.foldl] using this

theorem basePrefix_digits (c : Nat) (cs : List Nat)
    (hds : ∀ x ∈ c :: cs, isDigitByte x = true) :
    basePrefix (c :: cs) = if c = 48 then (8, cs) else (10, c :: cs) := by
  by_cases h48 : c = 48
  · subst h48
    simp only [if_true]
    unfold basePrefix
    match cs, hds with
    | [], _ => rfl
    | [_], _ => rfl
    | x :: y :: more, hds =>
      have hx : isDigitByte x = true := hds x (by simp)
      have hl := lower_digit x hx
      obtain ⟨h1, h2⟩ := (isDigitByte_iff x).mp hx
      have e1 : lower x ≠ 98 := by omega
      have e2 : lower x ≠ 111 := by omega
      have e3 : lower x ≠ 120 := by omega
      simp only [e1, e2, e3, if_false]
  · simp only [h48, if_false]
    unfold basePrefix
    split
    · next heq => simp only [List.cons.injEq] at heq; exact absurd heq.1 h48
    · rfl

/-- The shape of `ParseUint(s, 0, 64)` on a non-empty string. -/
theorem ParseUint_zero_base (s : List Nat) (hs : s ≠ []) :
    ParseUint s 0 64 =
      match parseUintLoop (basePrefix s).1 true ((2 ^ 64 - 1) / (basePrefix s).1 + 1) (2 ^ 64 - 1)
          (basePrefix s).2 0 false with
      | .error (v, e) => (v, some e)
      | .ok (n, underscores) =>
        if underscores = true ∧ underscoreOK s = false then (0, some NumError.ErrSyntax)
        else (n, none) := by
  unfold ParseUint
  rw [if_neg hs]
  rfl

theorem ParseInt_unsigned (c : Nat) (cs : List Nat) (h43 : c ≠ 43) (h45 : c ≠ 45) :
    ParseInt (c :: cs) 0 64 =
      if (ParseUint (c :: cs) 0 64).2 ≠ none ∧
          (ParseUint (c :: cs) 0 64).2 ≠ some NumError.ErrRange then
        (0, (ParseUint (c :: cs) 0 64).2)
      else if (ParseUint (c :: cs) 0 64).1 ≥ 2 ^ 63 then
        (2 ^ 63 - 1, some NumError.ErrRange)
      else (wrap64 ((ParseUint (c :: cs) 0 64).1 : Int), none) := by
  have hneg : (c == 45) = false := by simpa using h45
  unfold ParseInt
  simp only [h43, h45, or_self, if_false, hneg]
  simp

/-- The value `strconv.ParseUint(s, 0, 64)` gives on a digit string: base 8 after a
leading zero, base 10 otherwise. -/
theorem ParseUint_digits (c : Nat) (cs : List Nat) (hds : ∀ x ∈ c :: cs, isDigitByte x = true) :
    match ParseUint (c :: cs) 0 64 with
    | (r, none) => r = if c = 48 then digitsValue 8 cs else digitsValue 10 (c :: cs)
    | (v, some e) =>
      (e = NumError.ErrSyntax ∧ v = 0) ∨ (e = NumError.ErrRange ∧ v = 2 ^ 64 - 1) := by
  have hcs : ∀ x ∈ cs, isDigitByte x = true := fun x hx => hds x (List.mem_cons_of_mem _ hx)
  rw [ParseUint_zero_base _ (List.cons_ne_nil _ _), basePrefix_digits c cs hds]
  by_cases h48 : c = 48
  · rw [if_pos h48, if_pos h48]
    have : match parseUintLoop (8, cs).1 true ((2 ^ 64 - 1) / (8, cs).1 + 1) (2 ^ 64 - 1)
          (8, cs).2 0 false with
        | .ok (r, u) => r = cs.foldl (fun n c => n * 8 + (c - 48)) 0 ∧ u = false
        | .error (v, e) =>
          (e = NumError.ErrSyntax ∧ v = 0) ∨ (e = NumError.ErrRange ∧ v = 2 ^ 64 - 1) :=
      parseUintLoop_digits 8 (by norm_num) cs 0 false hcs
    revert this
    generalize parseUintLoop (8, cs).1 true _ _ (8, cs).2 0 false = L
    cases L with
    | error ve => obtain ⟨v, e⟩ := ve; exact fun h => h
    | ok ru =>
      obtain ⟨r, u⟩ := ru
      rintro ⟨hr, hu⟩
      subst hu
      simpa [digitsValue] using hr
  · rw [if_neg h48, if_neg h48]
    have : match parseUintLoop (10, c :: cs).1 true ((2 ^ 64 - 1) / (10, c :: cs).1 + 1)
          (2 ^ 64 - 1) (10, c :: cs).2 0 false with
        | .ok (r, u) => r = (c :: cs).foldl (fun n c => n * 10 + (c - 48)) 0 ∧ u = false
        | .error (v, e) =>
          (e = NumError.ErrSyntax ∧ v = 0) ∨ (e = NumError.ErrRange ∧ v = 2 ^ 64 - 1) :=
      parseUintLoop_digits 10 (by norm_num) (c :: cs) 0 false hds
    revert this
    generalize parseUintLoop (10, c :: cs).1 true _ _ (10, c :: cs).2 0 false = L
    cases L with
    | error ve => obtain ⟨v, e⟩ := ve; exact fun h => h
    | ok ru =>
      obtain ⟨r, u⟩ := ru
      rintro ⟨hr, hu⟩
      subst hu
      simpa [digitsValue] using hr

/-- When `strconv.ParseInt(s, 0, 64)` succeeds on a digit string, its value is the
number the digits denote in base 10, or in base 8 if the string starts with `0`. -/
theorem ParseInt_digits (value : List Nat) (i : Int) (hv : value ≠ [])
    (hds : ∀ x ∈ value, isDigitByte x = true) (h : ParseInt value 0 64 = (i, none)) :
    i = if value.head? = some 48 then (digitsValue 8 value.tail : Int)
      else (digitsValue 10 value : Int) := by
  cases value with
  | nil => exact absurd rfl hv
  | cons c cs =>
    obtain ⟨h1, h2⟩ := (isDigitByte_iff c).mp (hds c (List.mem_cons_self _ _))
    have hu := ParseUint_digits c cs hds
    rw [ParseInt_unsigned c cs (by omega) (by omega)] at h
    revert hu h
    generalize ParseUint (c :: cs) 0 64 = R
    obtain ⟨r, e⟩ := R
    cases e with
    | none =>
      intro h hu
      simp only [ne_eq, not_true_eq_false, false_and, if_false] at h
      by_cases hge : r ≥ 2 ^ 63
      · rw [if_pos hge] at h; cases h
      · rw [if_neg hge] at h
        simp only [Prod.mk.injEq, and_true] at h
        have hr : (r : Int) < 2 ^ 63 := by
          have : r < 2 ^ 63 := by omega
          exact_mod_cast this
        rw [wrap64_of_range _ (by have : (0:Int) ≤ r := Int.natCast_nonneg r; omega) hr] at h
        rw [← h]
        simp only at hu
        rw [hu]
        by_cases h48 : c = 48 <;> simp [h48]
    | some e =>
      intro h hu
      simp only at hu
      rcases hu with ⟨he, hv0⟩ | ⟨he, hv0⟩
      · subst he
        simp at h
      · subst he; subst hv0
        simp at h

/-! ## The stats parser -/

theorem fetchStatsLines_cons_none (l : List Nat) (ls : List (List Nat)) (acc : Stats)
    (h : matchStat l = none) : fetchStatsLines (l :: ls) acc = fetchStatsLines ls acc := by
  simp only [fetchStatsLines, h]

theorem fetchStatsLines_cons_ok (l name value : List Nat) (i : Int) (ls : List (List Nat))
    (acc : Stats) (h : matchStat l = some (name, value)) (hp : ParseInt value 0 64 = (i, none)) :
    fetchStatsLines (l :: ls) acc = fetchStatsLines ls (acc.set name i) := by
  simp only [fetchStatsLines, h, hp]

theorem fetchStatsLines_cons_err (l name value : List Nat) (i : Int) (e : NumError)
    (ls : List (List Nat)) (acc : Stats) (h : matchStat l = some (name, value))
    (hp : ParseInt value 0 64 = (i, some e)) :
    fetchStatsLines (l :: ls) acc = (acc, some (GoError.numErr e)) := by
  simp only [fetchStatsLines, h, hp]

theorem fetchStatsLines_skip (pre post : List (List Nat)) (l : List Nat) (acc : Stats)
    (h : matchStat l = none) :
    fetchStatsLines (pre ++ l :: post) acc = fetchStatsLines (pre ++ post) acc := by
  induction pre generalizing acc with
  | nil => exact fetchStatsLines_cons_none l post acc h
  | cons x pre ih =>
    simp only [List.cons_append, fetchStatsLines]
    split
    · exact ih acc
    · split
      · rfl
      · exact ih _

theorem fetchStatsLines_all_none (ls : List (List Nat)) (acc : Stats)
    (h : ∀ l ∈ ls, matchStat l = none) : fetchStatsLines ls acc = (acc, none) := by
  induction ls with
  | nil => rfl
  | cons l ls ih =>
    rw [fetchStatsLines_cons_none l ls acc (h l (List.mem_cons_self _ _))]
    exact ih (fun l' hl' => h l' (List.mem_cons_of_mem _ hl'))

theorem keysOf_cons_none (l : List Nat) (ls : List (List Nat)) (h : matchStat l = none) :
    keysOf (l :: ls) = keysOf ls := by
  simp [keysOf, List.filterMap_cons, h]

theorem keysOf_cons_some (l name value : List Nat) (ls : List (List Nat))
    (h : matchStat l = some (name, value)) : keysOf (l :: ls) = name :: keysOf ls := by
  simp [keysOf, List.filterMap_cons, h]

/-- Parsing leaves alone every key that no line of the response names. -/
theorem fetchStatsLines_frame (ls : List (List Nat)) (acc : Stats) (k : List Nat)
    (hk : k ∉ keysOf ls) : (fetchStatsLines ls acc).1.find k = acc.find k := by
  induction ls generalizing acc with
  | nil => rfl
  | cons l ls ih =>
    cases hm : matchStat l with
    | none =>
      rw [fetchStatsLines_cons_none l ls acc hm]
      rw [keysOf_cons_none l ls hm] at hk
      exact ih acc hk
    | some nv =>
      obtain ⟨name, value⟩ := nv
      rw [keysOf_cons_some l name value ls hm] at hk
      simp only [List.mem_cons, not_or] at hk
      cases hp : ParseInt value 0 64 with
      | mk i e =>
        cases e with
        | none =>
          rw [fetchStatsLines_cons_ok l name value i ls acc hm hp, ih _ hk.2]
          exact find_set_ne acc name k i hk.1
        | some e => rw [fetchStatsLines_cons_err l name value i e ls acc hm hp]

/-- Whether parsing fails does not depend on the accumulator. -/
theorem fetchStatsLines_err_indep (ls : List (List Nat)) (a b : Stats) :
    (fetchStatsLines ls a).2 = (fetchStatsLines ls b).2 := by
  induction ls generalizing a b with
  | nil => rfl
  | cons l ls ih =>
    cases hm : matchStat l with
    | none =>
      rw [fetchStatsLines_cons_none l ls a hm, fetchStatsLines_cons_none l ls b hm]
      exact ih a b
    | some nv =>
      obtain ⟨name, value⟩ := nv
      cases hp : ParseInt value 0 64 with
      | mk i e =>
        cases e with
        | none =>
          rw [fetchStatsLines_cons_ok l name value i ls a hm hp,
            fetchStatsLines_cons_ok l name value i ls b hm hp]
          exact ih _ _
        | some e =>
          rw [fetchStatsLines_cons_err l name value i e ls a hm hp,
            fetchStatsLines_cons_err l name value i e ls b hm hp]

/-- After a successful parse, a key named by a line of the response has a value,
and the value does not depend on the accumulator. -/
theorem fetchStatsLines_override (ls : List (List Nat)) (a b : Stats) (k : List Nat)
    (hok : (fetchStatsLines ls a).2 = none) (hk : k ∈ keysOf ls) :
    (fetchStatsLines ls a).1.find k = (fetchStatsLines ls b).1.find k ∧
      ((fetchStatsLines ls a).1.find k).isSome = true := by
  induction ls generalizing a b with
  | nil => simp [keysOf] at hk
  | cons l ls ih =>
    cases hm : matchStat l with
    | none =>
      rw [fetchStatsLines_cons_none l ls a hm] at hok ⊢
      rw [fetchStatsLines_cons_none l ls b hm]
      rw [keysOf_cons_none l ls hm] at hk
      exact ih a b hok hk
    | some nv =>
      obtain ⟨name, value⟩ := nv
      rw [keysOf_cons_some l name value ls hm] at hk
      cases hp : ParseInt value 0 64 with
      | mk i e =>
        cases e with
        | some e =>
          rw [fetchStatsLines_cons_err l name value i e ls a hm hp] at hok
          cases hok
        | none =>
          rw [fetchStatsLines_cons_ok l name value i ls a hm hp] at hok ⊢
          rw [fetchStatsLines_cons_ok l name value i ls b hm hp]
          by_cases hin : k ∈ keysOf ls
          · exact ih _ _ hok hin
          · have hkn : k = name := by
              rcases List.mem_cons.mp hk with h | h
              · exact h
              · exact absurd h hin
            subst hkn
            rw [fetchStatsLines_frame ls _ k hin, fetchStatsLines_frame ls _ k hin,
              find_set_self, find_set_self]
            exact ⟨rfl, rfl⟩

theorem fetchStatsLines_append (pre post : List (List Nat)) (acc : Stats) :
    fetchStatsLines (pre ++ post) acc =
      match fetchStatsLines pre acc with
      | (a, none) => fetchStatsLines post a
      | (a, some e) => (a, some e) := by
  induction pre generalizing acc with
  | nil => rfl
  | cons l pre ih =>
    cases hm : matchStat l with
    | none =>
      rw [List.cons_append, fetchStatsLines_cons_none _ _ _ hm, fetchStatsLines_cons_none _ _ _ hm]
      exact ih acc
    | some nv =>
      obtain ⟨name, value⟩ := nv
      cases hp : ParseInt value 0 64 with
      | mk i e =>
        cases e with
        | none =>
          rw [List.cons_append, fetchStatsLines_cons_ok _ _ _ _ _ _ hm hp,
            fetchStatsLines_cons_ok _ _ _ _ _ _ hm hp]
          exact ih _
        | some e =>
          rw [List.cons_append, fetchStatsLines_cons_err _ _ _ _ _ _ _ hm hp,
            fetchStatsLines_cons_err _ _ _ _ _ _ _ hm hp]

/-- Claim C1, as stated, fails: the line `STAT foo 010` parses without error and
stores `foo = 8`, while the digit string `010` denotes `10` in base 10. -/
theorem leading_zero_is_octal :
    fetchStatsBytes (ascii "STAT foo 010\r\n") [] = ([(ascii "foo", 8)], none) ∧
    digitsValue 10 (ascii "010") = 10 := by
  decide

/-- Claim C1, amended: for every response and every line of it of the form
`STAT <name> <value>` (name of one or more a-z/underscore characters, value of one
or more decimal digits, the line ended by CRLF or LF) after which no line begins
with `STAT <name> ` and a digit, if parsing returns no error then the accumulator
maps the name to the number the digit string denotes: in base 10 when it does not
start with `0`, and in base 8, read after the leading `0`, when it does. -/
theorem stat_line_value (buf : List Nat) (pre post : List (List Nat))
    (name value tail : List Nat) (acc acc' : Stats)
    (hsplit : splitLF buf = pre ++ (ascii "STAT " ++ name ++ 32 :: value ++ tail) :: post)
    (hn : name ≠ []) (hna : ∀ c ∈ name, isNameByte c = true)
    (hv : value ≠ []) (hva : ∀ c ∈ value, isDigitByte c = true)
    (htail : tail = [] ∨ tail = [13])
    (hlast : ∀ l ∈ post, ∀ d rest, isDigitByte d = true →
      l ≠ ascii "STAT " ++ name ++ 32 :: d :: rest)
    (hok : fetchStatsBytes buf acc = (acc', none)) :
    acc'.find name =
      some (if value.head? = some 48 then (digitsValue 8 value.tail : Int)
        else (digitsValue 10 value : Int)) := by
  have hm : matchStat (ascii "STAT " ++ name ++ 32 :: value ++ tail) = some (name, value) := by
    apply matchStat_exact name value tail hn hna hv hva
    intro d rest hd
    rcases htail with h | h
    · rw [h] at hd; cases hd
    · rw [h] at hd
      simp only [List.cons.injEq] at hd
      rw [← hd.1]
      decide
  have hpost : name ∉ keysOf post := by
    intro hin
    simp only [keysOf, List.mem_filterMap, Option.map_eq_some', Prod.exists] at hin
    obtain ⟨l, hl, n, v, hlv, hnn⟩ := hin
    rw [hnn] at hlv
    obtain ⟨rest, hshape, _, _, hvne, hvd, _⟩ := matchStat_some l name v hlv
    cases v with
    | nil => exact hvne rfl
    | cons d v' =>
      apply hlast l hl d (v' ++ rest) (hvd d (List.mem_cons_self _ _))
      rw [hshape]
      simp
  unfold fetchStatsBytes at hok
  rw [hsplit, fetchStatsLines_append] at hok
  rcases hpre : fetchStatsLines pre acc with ⟨a, e⟩
  rw [hpre] at hok
  cases e with
  | some e => simp at hok
  | none =>
    simp only at hok
    cases hp : ParseInt value 0 64 with
    | mk i e =>
      cases e with
      | some e =>
        rw [fetchStatsLines_cons_err _ _ _ _ _ _ _ hm hp] at hok
        simp at hok
      | none =>
        rw [fetchStatsLines_cons_ok _ _ _ _ _ _ hm hp] at hok
        have hfr := fetchStatsLines_frame post (a.set name i) name hpost
        rw [hok, find_set_self] at hfr
        rw [hfr, ParseInt_digits value i hv hva hp]

/-- An instance on the response `STAT foo 123`, `STAT bar 0`, `END`, for the name `foo`. -/
theorem stat_line_value_witness :
    Stats.find [(ascii "bar", 0), (ascii "foo", 123)] (ascii "foo") =
      some (if (ascii "123").head? = some 48 then (digitsValue 8 (ascii "123").tail : Int)
        else (digitsValue 10 (ascii "123") : Int)) :=
  stat_line_value (ascii "STAT foo 123\r\nSTAT bar 0\r\nEND\r\n") []
    [ascii "STAT bar 0\r", ascii "END\r", []] (ascii "foo") (ascii "123") [13] []
    [(ascii "bar", 0), (ascii "foo", 123)] (by decide) (by decide) (by decide) (by decide)
    (by decide) (Or.inr rfl)
    (no_later_line _ _ (by decide) (by decide) (by decide)) (by decide)

/-- Claim C8: when a first response was parsed into an empty map with result `acc1`
and a second response is then parsed into `acc1` with result `acc2`, both without
error, a key the second response does not set keeps in `acc2` the value it has in
`acc1` (and a key set by the first response has a value there), and a key the
second response sets has in `acc2` the value the second response gives it, which
is the value it gets when the second response is parsed alone. -/
theorem merge_second_response (buf1 buf2 : List Nat) (acc1 acc2 : Stats) (k : List Nat)
    (h1 : fetchStatsBytes buf1 [] = (acc1, none))
    (h2 : fetchStatsBytes buf2 acc1 = (acc2, none)) :
    (k ∈ statKeys buf1 → (acc1.find k).isSome = true) ∧
    (k ∉ statKeys buf2 → acc2.find k = acc1.find k) ∧
    (k ∈ statKeys buf2 →
      acc2.find k = (fetchStatsBytes buf2 []).1.find k ∧ (acc2.find k).isSome = true) ∧
    (fetchStatsBytes buf2 []).2 = none := by
  unfold fetchStatsBytes at h1 h2 ⊢
  unfold statKeys
  have e1 : (fetchStatsLines (splitLF buf1) []).2 = none := by rw [h1]
  have e2 : (fetchStatsLines (splitLF buf2) acc1).2 = none := by rw [h2]
  have a1 : acc1 = (fetchStatsLines (splitLF buf1) []).1 := by rw [h1]
  have a2 : acc2 = (fetchStatsLines (splitLF buf2) acc1).1 := by rw [h2]
  refine ⟨?_, ?_, ?_, ?_⟩
  · intro hk
    rw [a1]
    exact (fetchStatsLines_override _ [] [] k e1 hk).2
  · intro hk
    rw [a2]
    exact fetchStatsLines_frame _ acc1 k hk
  · intro hk
    rw [a2]
    exact fetchStatsLines_override _ acc1 [] k e2 hk
  · rw [fetchStatsLines_err_indep _ [] acc1]
    exact e2

/-- An instance on the responses `a 1, b 2` and `b 3, c 4`, at the key `b`. -/
theorem merge_second_response_witness :
    (ascii "b" ∈ statKeys (ascii "STAT a 1\r\nSTAT b 2\r\nEND\r\n") →
      (Stats.find [(ascii "b", 2), (ascii "a", 1)] (ascii "b")).isSome = true) ∧
    (ascii "b" ∉ statKeys (ascii "STAT b 3\r\nSTAT c 4\r\nEND\r\n") →
      Stats.find [(ascii "c", 4), (ascii "b", 3), (ascii "a", 1)] (ascii "b") =
        Stats.find [(ascii "b", 2), (ascii "a", 1)] (ascii "b")) ∧
    (ascii "b" ∈ statKeys (ascii "STAT b 3\r\nSTAT c 4\r\nEND\r\n") →
      Stats.find [(ascii "c", 4), (ascii "b", 3), (ascii "a", 1)] (ascii "b") =
        (fetchStatsBytes (ascii "STAT b 3\r\nSTAT c 4\r\nEND\r\n") []).1.find (ascii "b") ∧
      (Stats.find [(ascii "c", 4), (ascii "b", 3), (ascii "a", 1)] (ascii "b")).isSome = true) ∧
    (fetchStatsBytes (ascii "STAT b 3\r\nSTAT c 4\r\nEND\r\n") []).2 = none :=
  merge_second_response (ascii "STAT a 1\r\nSTAT b 2\r\nEND\r\n")
    (ascii "STAT b 3\r\nSTAT c 4\r\nEND\r\n") [(ascii "b", 2), (ascii "a", 1)]
    [(ascii "c", 4), (ascii "b", 3), (ascii "a", 1)] (ascii "b") (by decide) (by decide)

/-- The two responses of that instance, evaluated: `b` is overridden, `a` is kept. -/
theorem merge_example :
    fetchStatsBytes (ascii "STAT a 1\r\nSTAT b 2\r\nEND\r\n") [] =
      ([(ascii "b", 2), (ascii "a", 1)], none) ∧
    fetchStatsBytes (ascii "STAT b 3\r\nSTAT c 4\r\nEND\r\n") [(ascii "b", 2), (ascii "a", 1)] =
      ([(ascii "c", 4), (ascii "b", 3), (ascii "a", 1)], none) := by
  decide

/-- Claim C9, as stated, fails: the line `STAT version 1.6.9`, one of the lines the
claim lists as ignored, stores `version = 1`. -/
theorem version_line_is_stored :
    fetchStatsBytes (ascii "STAT version 1.6.9\r\n") [] = ([(ascii "version", 1)], none) ∧
    fetchStatsBytes (ascii "STAT version 1.6.9\r\n") [] ≠ ([], none) := by
  decide

/-- Claim C9, amended: a line of the response that does not begin with `STAT `, a
name of one or more a-z/underscore characters, one space and one or more decimal
digits adds or changes no entry and causes no error: the parse gives what it gives
on the response without that line; and when no line of the response begins so
(e.g. `END`, `ERROR`, empty lines), the accumulator is unchanged and no error is
returned. -/
theorem nonmatching_lines_ignored (buf : List Nat) (pre post : List (List Nat)) (l : List Nat)
    (acc : Stats) (hsplit : splitLF buf = pre ++ l :: post) (hl : ¬ beginsWithStat l) :
    fetchStatsBytes buf acc = fetchStatsLines (pre ++ post) acc ∧
    ((∀ l' ∈ pre ++ post, ¬ beginsWithStat l') → fetchStatsBytes buf acc = (acc, none)) := by
  have hnone : ∀ x, ¬ beginsWithStat x → matchStat x = none := by
    intro x hx
    by_contra hne
    exact hx (matchStat_beginsWithStat x hne)
  have h1 : fetchStatsBytes buf acc = fetchStatsLines (pre ++ post) acc := by
    unfold fetchStatsBytes
    rw [hsplit]
    exact fetchStatsLines_skip pre post l acc (hnone l hl)
  refine ⟨h1, ?_⟩
  intro hall
  rw [h1]
  exact fetchStatsLines_all_none _ acc (fun l' hl' => hnone l' (hall l' hl'))

/-- An instance on the response `END`, `ERROR`, empty line. -/
theorem nonmatching_lines_ignored_witness :
    fetchStatsBytes (ascii "END\r\nERROR\r\n\r\n") [(ascii "foo", 1)] =
      fetchStatsLines ([] ++ [ascii "ERROR\r", [13], []]) [(ascii "foo", 1)] ∧
    ((∀ l ∈ [] ++ [ascii "ERROR\r", [13], []], ¬ beginsWithStat l) →
      fetchStatsBytes (ascii "END\r\nERROR\r\n\r\n") [(ascii "foo", 1)] =
        ([(ascii "foo", 1)], none)) :=
  nonmatching_lines_ignored (ascii "END\r\nERROR\r\n\r\n") [] [ascii "ERROR\r", [13], []]
    (ascii "END\r") [(ascii "foo", 1)] (by decide)
    (fun h => (beginsWithStat_iff _).mp h (by decide))

/-! ## The values stored by the parser are non-negative `int64` -/

/-- A successful `strconv.ParseInt(s, 0, 64)` on a string without sign gives a value
in `[0, 2^63)`. -/
theorem ParseInt_unsigned_range (c : Nat) (cs : List Nat) (i : Int) (h43 : c ≠ 43)
    (h45 : c ≠ 45) (h : ParseInt (c :: cs) 0 64 = (i, none)) : 0 ≤ i ∧ i < 2 ^ 63 := by
  rw [ParseInt_unsigned c cs h43 h45] at h
  revert h
  generalize ParseUint (c :: cs) 0 64 = R
  obtain ⟨r, e⟩ := R
  intro h
  simp only at h
  split_ifs at h with h1 h2
  · simp only [Prod.mk.injEq] at h
    exact absurd h.2 h1.1
  · simp at h
  · simp only [Prod.mk.injEq, and_true] at h
    have hr : (r : Int) < 2 ^ 63 := by
      have : r < 2 ^ 63 := by omega
      exact_mod_cast this
    have h0 : (0 : Int) ≤ r := Int.natCast_nonneg r
    rw [wrap64_of_range _ (by omega) hr] at h
    rw [← h]
    exact ⟨h0, hr⟩

theorem inRange_nil : Stats.inRange [] := by
  intro k
  simp [Stats.get, Stats.find, List.lookup]

theorem inRange_set (m : Stats) (k : List Nat) (v : Int) (hm : m.inRange)
    (hv : 0 ≤ v ∧ v < 2 ^ 63) : (m.set k v).inRange := by
  intro k'
  by_cases h : k' = k
  · subst h
    simpa [Stats.get, find_set_self] using hv
  · have := hm k'
    simpa [Stats.get, find_set_ne m k k' v h] using this

theorem fetchStatsLines_inRange (ls : List (List Nat)) (acc : Stats) (h : acc.inRange) :
    (fetchStatsLines ls acc).1.inRange := by
  induction ls generalizing acc with
  | nil => exact h
  | cons l ls ih =>
    cases hm : matchStat l with
    | none =>
      rw [fetchStatsLines_cons_none l ls acc hm]
      exact ih acc h
    | some nv =>
      obtain ⟨name, value⟩ := nv
      cases hp : ParseInt value 0 64 with
      | mk i e =>
        cases e with
        | some e =>
          rw [fetchStatsLines_cons_err l name value i e ls acc hm hp]
          exact h
        | none =>
          rw [fetchStatsLines_cons_ok l name value i ls acc hm hp]
          apply ih
          apply inRange_set acc name i h
          obtain ⟨_, _, _, _, hv, hvd, _⟩ := matchStat_some l name value hm
          cases value with
          | nil => exact absurd rfl hv
          | cons c cs =>
            obtain ⟨c1, c2⟩ := (isDigitByte_iff c).mp (hvd c (List.mem_cons_self _ _))
            exact ParseInt_unsigned_range c cs i (by omega) (by omega) hp

theorem fetchStats_inRange (reads rest : List ReadResult) (acc stats : Stats)
    (err : Option GoError) (h : acc.inRange)
    (hf : fetchStats reads acc = some ((stats, err), rest)) : stats.inRange := by
  unfold fetchStats at hf
  split at hf
  · cases hf
  · simp only [Option.some.injEq, Prod.mk.injEq] at hf
    rw [← hf.1.1]
    exact h
  · next buf rest' _ =>
    simp only [Option.some.injEq, Prod.mk.injEq] at hf
    have := fetchStatsLines_inRange (splitLF buf) acc h
    unfold fetchStatsBytes at hf
    rw [hf.1] at this
    exact this

/-! ## The snapshot file name -/

theorem sep_split_unique (a b p q : List Nat) (hp : 45 ∉ p) (hq : 45 ∉ q)
    (h : a ++ 45 :: p = b ++ 45 :: q) : a = b ∧ p = q := by
  induction a generalizing b with
  | nil =>
    cases b with
    | nil => simpa using h
    | cons c b =>
      simp only [List.nil_append, List.cons_append, List.cons.injEq] at h
      exact absurd (h.2 ▸ (by simp : 45 ∈ b ++ 45 :: q)) hp
  | cons x a ih =>
    cases b with
    | nil =>
      simp only [List.nil_append, List.cons_append, List.cons.injEq] at h
      exact absurd (h.2 ▸ (by simp : 45 ∈ a ++ 45 :: p)) hq
    | cons c b =>
      simp only [List.cons_append, List.cons.injEq] at h
      obtain ⟨rfl, rfl⟩ := ih b h.2
      exact ⟨by rw [h.1], rfl⟩

/-- Claim C4, as stated, fails: the targets `cache-1:11211` and `cache:1-11211` are
different pairs of non-empty strings and get the same file name. -/
theorem prevPathName_collision :
    (ascii "cache-1", ascii "11211") ≠ (ascii "cache", ascii "1-11211") ∧
    prevPathName (ascii "1000") { Host := ascii "cache-1", Port := ascii "11211" } =
      prevPathName (ascii "1000") { Host := ascii "cache", Port := ascii "1-11211" } := by
  decide

/-- Claim C4, amended: for every uid and every two targets whose ports contain no
`-` (every numeric port), the file names built as
`uid + "-mackerel-plugin-memcached-lite-" + host + "-" + port` are equal exactly
when the hosts are equal and the ports are equal. -/
theorem prevPathName_injective (uid : List Nat) (o1 o2 : connectionOpts)
    (h1 : 45 ∉ o1.Port) (h2 : 45 ∉ o2.Port) :
    prevPathName uid o1 = prevPathName uid o2 ↔ o1.Host = o2.Host ∧ o1.Port = o2.Port := by
  constructor
  · intro h
    have hsep : ascii "-" = [45] := by decide
    simp only [prevPathName, hsep, List.append_assoc, List.singleton_append] at h
    have h' := List.append_cancel_left (List.append_cancel_left h)
    exact sep_split_unique _ _ _ _ h1 h2 h'
  · rintro ⟨hh, hp⟩
    simp only [prevPathName, hh, hp]

/-- An instance on the targets `cache-1:11211` and `cache-2:11211`. -/
theorem prevPathName_injective_witness :
    prevPathName (ascii "1000") { Host := ascii "cache-1", Port := ascii "11211" } =
      prevPathName (ascii "1000") { Host := ascii "cache-2", Port := ascii "11211" } ↔
    ascii "cache-1" = ascii "cache-2" ∧ ascii "11211" = ascii "11211" :=
  prevPathName_injective (ascii "1000")
    { Host := ascii "cache-1", Port := ascii "11211" }
    { Host := ascii "cache-2", Port := ascii "11211" } (by decide) (by decide)

/-! ## The protocol reader -/

/-- A read of fewer than `readLimit` bytes ends `slurp` with a nil error, whatever
error the read returned. -/
theorem slurpLoop_short_read (r : ReadResult) (rs : List ReadResult) (buf : List Nat)
    (h : r.data.length < readLimit) :
    slurpLoop (r :: rs) buf =
      some ((if r.data.length > 0 then buf ++ r.data else buf, none), rs) := by
  simp [slurpLoop, h]

/-- A read of `readLimit` bytes with an error other than `io.EOF` ends `slurp` with
that error. -/
theorem slurpLoop_full_read_error (r : ReadResult) (rs : List ReadResult) (buf : List Nat)
    (e : GoError) (h : r.data.length = readLimit) (he : r.err = some e)
    (hne : e ≠ GoError.EOF) :
    slurpLoop (r :: rs) buf = some ((buf ++ r.data, some e), rs) := by
  have hpos : 0 < readLimit := by decide
  simp [slurpLoop, h, he, hne, hpos]

/-- Claim C2 fails on the code: a read that returns no byte and an error other
than `io.EOF` (a timeout) makes `slurp` return a nil error, and `fetchStats` then
parses the empty response and returns nil as well. -/
theorem slurp_drops_error_of_short_read :
    slurp [{ data := [], err := some (GoError.connErr 1) }] = some (([], none), []) ∧
    fetchStats [{ data := [], err := some (GoError.connErr 1) }] [] = some (([], none), []) := by
  decide

/-! ## The verb `%d` -/

theorem fmtNatAux_eq (n : Nat) : ∀ fuel, n < fuel → ∀ acc,
    fmtNatAux fuel n acc = fmtNat n ++ acc := by
  induction n using Nat.strong_induction_on with
  | _ n ih =>
    intro fuel hf acc
    obtain ⟨a, rfl⟩ : ∃ a, fuel = a + 1 := ⟨fuel - 1, by omega⟩
    unfold fmtNat
    simp only [fmtNatAux]
    by_cases h0 : n / 10 = 0
    · simp [h0]
    · have hlt : n / 10 < n := by omega
      rw [if_neg h0, if_neg h0, ih (n / 10) hlt a (by omega), ih (n / 10) hlt n hlt]
      simp

theorem fmtNat_small (n : Nat) (h : n < 10) : fmtNat n = [48 + n] := by
  unfold fmtNat
  simp only [fmtNatAux]
  have h0 : n / 10 = 0 := by omega
  have h1 : n % 10 = n := by omega
  simp [h0, h1]

theorem fmtNat_step (n : Nat) (h : 10 ≤ n) : fmtNat n = fmtNat (n / 10) ++ [48 + n % 10] := by
  have h0 : ¬ n / 10 = 0 := by omega
  have e : fmtNat n = fmtNatAux n (n / 10) [48 + n % 10] := by
    unfold fmtNat
    simp only [fmtNatAux]
    rw [if_neg h0]
  rw [e, fmtNatAux_eq (n / 10) n (by omega)]

theorem fmtNat_ne_nil (n : Nat) : fmtNat n ≠ [] := by
  by_cases h : n < 10
  · rw [fmtNat_small n h]; simp
  · rw [fmtNat_step n (by omega)]; simp

theorem fmtNat_digits (n : Nat) : ∀ c ∈ fmtNat n, isDigitByte c = true := by
  induction n using Nat.strong_induction_on with
  | _ n ih =>
    intro c hc
    by_cases h : n < 10
    · rw [fmtNat_small n h] at hc
      simp only [List.mem_singleton] at hc
      rw [isDigitByte_iff]
      omega
    · rw [fmtNat_step n (by omega), List.mem_append, List.mem_singleton] at hc
      rcases hc with hc | hc
      · exact ih (n / 10) (by omega) c hc
      · rw [isDigitByte_iff]
        omega

theorem digitsValue_append (b : Nat) (ds : List Nat) (c : Nat) :
    digitsValue b (ds ++ [c]) = digitsValue b ds * b + (c - 48) := by
  simp [digitsValue, List.foldl_append]

theorem digitsValue_fmtNat (n : Nat) : digitsValue 10 (fmtNat n) = n := by
  induction n using Nat.strong_induction_on with
  | _ n ih =>
    by_cases h : n < 10
    · rw [fmtNat_small n h]
      simp [digitsValue]
    · rw [fmtNat_step n (by omega), digitsValue_append, ih (n / 10) (by omega)]
      omega

theorem fmtNat_head (n : Nat) (hn : 0 < n) : (fmtNat n).head? ≠ some 48 := by
  induction n using Nat.strong_induction_on with
  | _ n ih =>
    by_cases h : n < 10
    · rw [fmtNat_small n h]
      simp only [List.head?_cons, ne_eq, Option.some.injEq]
      omega
    · rw [fmtNat_step n (by omega)]
      have := ih (n / 10) (by omega) (by omega)
      cases hd : fmtNat (n / 10) with
      | nil => exact absurd hd (fmtNat_ne_nil _)
      | cons c cs => rw [hd] at this; simpa using this

/-! ## `strconv.ParseInt` on the output of `%d` -/

theorem foldl_digits_ge (b : Nat) (hb : 0 < b) (ds : List Nat) (n : Nat) :
    n ≤ ds.foldl (fun n c => n * b + (c - 48)) n := by
  induction ds generalizing n with
  | nil => exact Nat.le_refl _
  | cons c cs ih =>
    simp only [List.foldl_cons]
    have h1 := ih (n * b + (c - 48))
    have h2 : n ≤ n * b := Nat.le_mul_of_pos_right n hb
    omega

/-- The digit loop in base 10 succeeds on a digit string whose value fits in
64 bits. -/
theorem parseUintLoop_decimal_ok (ds : List Nat) (n : Nat) (us : Bool)
    (hds : ∀ c ∈ ds, isDigitByte c = true)
    (hfit : ds.foldl (fun n c => n * 10 + (c - 48)) n < 2 ^ 64) :
    parseUintLoop 10 true ((2 ^ 64 - 1) / 10 + 1) (2 ^ 64 - 1) ds n us =
      .ok (ds.foldl (fun n c => n * 10 + (c - 48)) n, us) := by
  induction ds generalizing n with
  | nil => rfl
  | cons c cs ih =>
    have hc := hds c (List.mem_cons_self _ _)
    obtain ⟨c1, c2⟩ := (isDigitByte_iff c).mp hc
    simp only [List.foldl_cons] at hfit ⊢
    have hge := foldl_digits_ge 10 (by norm_num) cs (n * 10 + (c - 48))
    rw [parseUintLoop_cons_digit 10 true _ _ c cs n us hc]
    rw [if_neg (by omega), if_neg (by omega)]
    have h3 : n * 10 % 2 ^ 64 = n * 10 := Nat.mod_eq_of_lt (by omega)
    have h4 : (n * 10 + (c - 48)) % 2 ^ 64 = n * 10 + (c - 48) := Nat.mod_eq_of_lt (by omega)
    rw [h3, h4, if_neg (by omega)]
    exact ih _ (fun x hx => hds x (List.mem_cons_of_mem _ hx)) hfit

/-- Reading back with `strconv.ParseInt(_, 0, 64)` what `%d` printed for a
non-negative `int64`. -/
theorem ParseInt_fmtInt (v : Int) (h0 : 0 ≤ v) (h1 : v < 2 ^ 63) :
    ParseInt (fmtInt v) 0 64 = (v, none) := by
  obtain ⟨n, rfl⟩ := Int.eq_ofNat_of_zero_le h0
  have hn : n < 2 ^ 63 := by exact_mod_cast h1
  have hf : fmtInt (n : Int) = fmtNat n := by
    unfold fmtInt
    rw [if_neg (by omega)]
    simp
  rw [hf]
  by_cases hz : n = 0
  · subst hz
    decide
  · have hd := fmtNat_digits n
    have hh := fmtNat_head n (by omega)
    have hv := digitsValue_fmtNat n
    revert hd hh hv
    cases fmtNat n with
    | nil => intro _ _ hv; simp [digitsValue] at hv; omega
    | cons c cs =>
      intro hd hh hv
      obtain ⟨c1, c2⟩ := (isDigitByte_iff c).mp (hd c (List.mem_cons_self _ _))
      have h48 : c ≠ 48 := by simpa using hh
      have hloop := parseUintLoop_decimal_ok (c :: cs) 0 false hd
        (by unfold digitsValue at hv; rw [hv]; omega)
      have hu : ParseUint (c :: cs) 0 64 = (n, none) := by
        rw [ParseUint_zero_base _ (List.cons_ne_nil _ _), basePrefix_digits c cs hd, if_neg h48]
        show (match parseUintLoop 10 true ((2 ^ 64 - 1) / 10 + 1) (2 ^ 64 - 1) (c :: cs) 0
              false with
          | .error (v, e) => (v, some e)
          | .ok (n, underscores) =>
            if underscores = true ∧ underscoreOK (c :: cs) = false then
              (0, some NumError.ErrSyntax)
            else (n, none)) = (n, none)
        rw [hloop]
        unfold digitsValue at hv
        simp [hv]
      rw [ParseInt_unsigned c cs (by omega) (by omega), hu]
      simp only [ne_eq, not_true_eq_false, false_and, if_false]
      rw [if_neg (by omega), wrap64_of_range _ (by omega) (by exact_mod_cast hn)]

/-! ## Reading a line of `writeStats` with the csv reader -/

theorem readSlice_append (a rest : List Nat) (ha : 10 ∉ a) :
    readSlice (a ++ 10 :: rest) = (a ++ [10], rest) := by
  induction a with
  | nil => simp [readSlice]
  | cons c a ih =>
    have hc : c ≠ 10 := fun h => ha (by simp [h])
    have ha2 : 10 ∉ a := fun h => ha (List.mem_cons_of_mem _ h)
    simp [readSlice, hc, ih ha2]

theorem readLine_line (a rest : List Nat) (ha : 10 ∉ a) (h13 : a.getLast? ≠ some 13) :
    readLine (a ++ 10 :: rest) = ((a ++ [10], false), rest) := by
  unfold readLine
  rw [readSlice_append a rest ha]
  simp [h13]

theorem readLine_nil : readLine [] = (([], true), []) := by decide

theorem skipEmptyLines_line (fuel : Nat) (a rest : List Nat) (ha : 10 ∉ a) (hne : a ≠ [])
    (h13 : a.getLast? ≠ some 13) :
    skipEmptyLines (fuel + 1) (a ++ 10 :: rest) = some (some (a ++ [10], rest)) := by
  have hlen : (a ++ [10]).length ≠ lengthNL (a ++ [10]) := by
    have hpos : 0 < a.length := List.length_pos.mpr hne
    have hnl : lengthNL (a ++ [10]) = 1 := by simp [lengthNL]
    rw [hnl, List.length_append, List.length_singleton]
    omega
  simp only [skipEmptyLines, readLine_line a rest ha h13]
  rw [if_neg (by simp), if_neg hlen]

theorem indexByte_append (b : Nat) (a rest : List Nat) (ha : b ∉ a) :
    indexByte b (a ++ b :: rest) = some a.length := by
  induction a with
  | nil => simp [indexByte]
  | cons c a ih =>
    have hc : c ≠ b := fun h => ha (by simp [h])
    have ha2 : b ∉ a := fun h => ha (List.mem_cons_of_mem _ h)
    simp [indexByte, hc, ih ha2]

theorem indexByte_none (b : Nat) (l : List Nat) (h : b ∉ l) : indexByte b l = none := by
  induction l with
  | nil => rfl
  | cons c l ih =>
    have hc : c ≠ b := fun hcb => h (by simp [hcb])
    have h2 : b ∉ l := fun hb => h (List.mem_cons_of_mem _ hb)
    simp [indexByte, hc, ih h2]

/-- One turn of the loop on an unquoted field that a tab ends. -/
theorem parseFieldLoop_tab (fuel : Nat) (line input : List Nat) (fields : List (List Nat))
    (i : Nat) (h : line.head? ≠ some 34) (hi : indexByte 9 line = some i) :
    parseFieldLoop (fuel + 1) line input fields none =
      parseFieldLoop fuel (line.drop (i + 1)) input (fields ++ [line.take i]) none := by
  simp only [parseFieldLoop]
  rw [if_pos h, hi]

/-- One turn of the loop on an unquoted field that ends the line. -/
theorem parseFieldLoop_last (fuel : Nat) (line input : List Nat) (fields : List (List Nat))
    (h : line.head? ≠ some 34) (hi : indexByte 9 line = none) :
    parseFieldLoop (fuel + 1) line input fields none =
      some (fields ++ [line.take (line.length - lengthNL line)], input) := by
  simp only [parseFieldLoop]
  rw [if_pos h, hi]

/-- The two fields of a line `key<TAB>digits<LF>` whose key and digits hold no tab
and no quote at their head. -/
theorem parseFieldLoop_two_fields (fuel : Nat) (k ds input : List Nat)
    (hk : k.head? ≠ some 34) (hkne : k ≠ []) (hk9 : 9 ∉ k)
    (hd : ds.head? ≠ some 34) (hdne : ds ≠ []) (hd9 : 9 ∉ ds) :
    parseFieldLoop (fuel + 2) (k ++ 9 :: (ds ++ [10])) input [] none =
      some ([k, ds], input) := by
  have h1 : (k ++ 9 :: (ds ++ [10])).head? ≠ some 34 := by
    cases k with
    | nil => exact absurd rfl hkne
    | cons c k => simpa using hk
  have h2 : (ds ++ [10]).head? ≠ some 34 := by
    cases ds with
    | nil => exact absurd rfl hdne
    | cons c ds => simpa using hd
  have h3 : indexByte 9 (ds ++ [10]) = none :=
    indexByte_none 9 _ (by simp [hd9])
  have h4 : lengthNL (ds ++ [10]) = 1 := by simp [lengthNL]
  have h5 : List.drop (k.length + 1) (k ++ 9 :: (ds ++ [10])) = ds ++ [10] := by
    rw [List.drop_append_eq_append_drop]
    simp
  have h6 : List.take k.length (k ++ 9 :: (ds ++ [10])) = k := by simp
  rw [parseFieldLoop_tab (fuel + 1) _ input [] k.length h1 (indexByte_append 9 k _ hk9), h5, h6,
    parseFieldLoop_last fuel _ input _ h2 h3, h4]
  simp

theorem name_byte_ne (k : List Nat) (hna : ∀ c ∈ k, isNameByte c = true) (b : Nat)
    (hb : isNameByte b = false) : b ∉ k := by
  intro h
  rw [hna b h] at hb
  cases hb

theorem digit_byte_ne (ds : List Nat) (hd : ∀ c ∈ ds, isDigitByte c = true) (b : Nat)
    (hb : isDigitByte b = false) : b ∉ ds := by
  intro h
  rw [hd b h] at hb
  cases hb

theorem head?_ne_of_not_mem (l : List Nat) (b : Nat) (h : b ∉ l) : l.head? ≠ some b := by
  cases l with
  | nil => simp
  | cons c l =>
    simp only [List.head?_cons, ne_eq, Option.some.injEq]
    intro hc
    exact h (by simp [hc])

theorem getLast?_ne_of_not_mem (l : List Nat) (b : Nat) (h : b ∉ l) : l.getLast? ≠ some b := by
  intro hl
  exact h (List.mem_of_getLast?_eq_some hl)

/-- The csv reader on a line `key<TAB>digits<LF>` of a snapshot file. -/
theorem csvRead_statLine (fuel : Nat) (k ds rest : List Nat) (fpr : Nat)
    (hfpr : fpr = 0 ∨ fpr = 2)
    (hkne : k ≠ []) (hna : ∀ c ∈ k, isNameByte c = true)
    (hdne : ds ≠ []) (hda : ∀ c ∈ ds, isDigitByte c = true) :
    csvRead (fuel + 1) { input := k ++ 9 :: (ds ++ 10 :: rest), fieldsPerRecord := fpr } =
      some (([k, ds], none), { input := rest, fieldsPerRecord := 2 }) := by
  have hk9 := name_byte_ne k hna 9 (by decide)
  have hk10 := name_byte_ne k hna 10 (by decide)
  have hk34 := name_byte_ne k hna 34 (by decide)
  have hd9 := digit_byte_ne ds hda 9 (by decide)
  have hd10 := digit_byte_ne ds hda 10 (by decide)
  have hd13 := digit_byte_ne ds hda 13 (by decide)
  have hd34 := digit_byte_ne ds hda 34 (by decide)
  have hin : k ++ 9 :: (ds ++ 10 :: rest) = (k ++ 9 :: ds) ++ 10 :: rest := by simp
  have ha10 : 10 ∉ k ++ 9 :: ds := by simp [hk10, hd10]
  have hane : k ++ 9 :: ds ≠ [] := by simp
  have ha13 : (k ++ 9 :: ds).getLast? ≠ some 13 := by
    have : (k ++ 9 :: ds).getLast? = ds.getLast? := by
      rw [show k ++ 9 :: ds = (k ++ [9]) ++ ds by simp]
      exact List.getLast?_append_of_ne_nil _ hdne
    rw [this]
    exact getLast?_ne_of_not_mem ds 13 hd13
  have hline : (k ++ 9 :: ds) ++ [10] = k ++ 9 :: (ds ++ [10]) := by simp
  obtain ⟨f, hf⟩ : ∃ f, (k ++ 9 :: (ds ++ [10])).length + rest.length + 1 = f + 2 :=
    ⟨(k ++ 9 :: (ds ++ [10])).length + rest.length - 1, by simp; omega⟩
  unfold csvRead
  simp only
  rw [hin, skipEmptyLines_line fuel _ rest ha10 hane ha13]
  simp only [hline]
  rw [hf, parseFieldLoop_two_fields f k ds rest (head?_ne_of_not_mem k 34 hk34) hkne hk9
    (head?_ne_of_not_mem ds 34 hd34) hdne hd9]
  rcases hfpr with h | h <;> subst h <;> simp

theorem csvRead_nil (fuel : Nat) (fpr : Nat) :
    csvRead (fuel + 1) { input := [], fieldsPerRecord := fpr } =
      some (([], some GoError.EOF), { input := [], fieldsPerRecord := fpr }) := by
  simp [csvRead, skipEmptyLines, readLine_nil]

theorem fmtInt_nonneg (v : Int) (h0 : 0 ≤ v) : fmtInt v = fmtNat v.toNat := by
  unfold fmtInt
  rw [if_neg (by omega)]

/-- Reading the file `writeStats` wrote for the entries `es`: every line is stored
and the loop ends without error at the end of the file. -/
theorem loadStatsLoop_written (es : Stats) : ∀ (fuel fpr : Nat) (acc : Stats),
    es.length < fuel → (fpr = 0 ∨ fpr = 2) →
    (∀ e ∈ es, e.1 ≠ [] ∧ ∀ c ∈ e.1, isNameByte c = true) →
    (∀ e ∈ es, 0 ≤ e.2 ∧ e.2 < 2 ^ 63) →
    loadStatsLoop fuel { input := writeStatsBytes es, fieldsPerRecord := fpr } acc =
      some (LoadResult.returned (insertAll es acc) none) := by
  induction es with
  | nil =>
    intro fuel fpr acc hf _ _ _
    obtain ⟨f, rfl⟩ : ∃ f, fuel = f + 1 := ⟨fuel - 1, by simp at hf; omega⟩
    simp [loadStatsLoop, writeStatsBytes, csvRead_nil, insertAll]
  | cons e es ih =>
    intro fuel fpr acc hf hfpr hkeys hvals
    obtain ⟨f, rfl⟩ : ∃ f, fuel = f + 1 := ⟨fuel - 1, by simp at hf; omega⟩
    obtain ⟨hkne, hna⟩ := hkeys e (List.mem_cons_self _ _)
    obtain ⟨hv0, hv1⟩ := hvals e (List.mem_cons_self _ _)
    have hds : fmtInt e.2 = fmtNat e.2.toNat := fmtInt_nonneg e.2 hv0
    have hin : writeStatsBytes (e :: es) =
        e.1 ++ 9 :: (fmtInt e.2 ++ 10 :: writeStatsBytes es) := by
      simp [writeStatsBytes, statLine]
    have hread := csvRead_statLine ((writeStatsBytes (e :: es)).length) e.1 (fmtInt e.2)
      (writeStatsBytes es) fpr hfpr hkne hna (by rw [hds]; exact fmtNat_ne_nil _)
      (by rw [hds]; exact fmtNat_digits _)
    rw [← hin] at hread
    simp only [loadStatsLoop, hread]
    simp only [reduceCtorEq, if_false, ne_eq, not_true_eq_false, ParseInt_fmtInt e.2 hv0 hv1,
      List.headD_cons]
    rw [ih f 2 _ (by simp at hf; omega) (Or.inr rfl)
      (fun x hx => hkeys x (List.mem_cons_of_mem _ hx))
      (fun x hx => hvals x (List.mem_cons_of_mem _ hx))]
    rfl

/-! ## The map read back -/

theorem set_of_not_mem (m : Stats) (k : List Nat) (v : Int) (h : k ∉ m.map Prod.fst) :
    m.set k v = (k, v) :: m := by
  unfold Stats.set
  congr 1
  rw [List.filter_eq_self]
  intro e he
  have : e.1 ≠ k := fun hek => h (List.mem_map.mpr ⟨e, he, hek⟩)
  simpa using this

theorem insertAll_fresh (es : Stats) : ∀ acc : Stats,
    ((es.map Prod.fst).Nodup) → (∀ e ∈ es, e.1 ∉ acc.map Prod.fst) →
    insertAll es acc = es.reverse ++ acc := by
  induction es with
  | nil => intro acc _ _; rfl
  | cons e es ih =>
    intro acc hnd hfresh
    simp only [List.map_cons, List.nodup_cons] at hnd
    have hset : acc.set e.1 e.2 = e :: acc :=
      set_of_not_mem acc e.1 e.2 (hfresh e (List.mem_cons_self _ _))
    have hstep : insertAll (e :: es) acc = insertAll es (acc.set e.1 e.2) := rfl
    rw [hstep, hset, ih (e :: acc) hnd.2]
    · simp
    · intro x hx
      simp only [List.map_cons, List.mem_cons, not_or]
      refine ⟨?_, hfresh x (List.mem_cons_of_mem _ hx)⟩
      intro hxe
      exact hnd.1 (List.mem_map.mpr ⟨x, hx, hxe⟩)

/-- In a map, the lookup of a key gives the value of its entry. -/
theorem find_eq_some_iff (m : Stats) (hnd : (m.map Prod.fst).Nodup) (k : List Nat) (v : Int) :
    m.find k = some v ↔ (k, v) ∈ m := by
  induction m with
  | nil => simp [Stats.find, List.lookup]
  | cons e m ih =>
    obtain ⟨a, b⟩ := e
    simp only [List.map_cons, List.nodup_cons] at hnd
    have ih' := ih hnd.2
    unfold Stats.find at ih' ⊢
    by_cases hka : k = a
    · subst hka
      have hbeq : (k == k) = true := by simp
      simp only [List.lookup, hbeq, Option.some.injEq, List.mem_cons, Prod.mk.injEq, true_and]
      constructor
      · intro h; exact Or.inl h.symm
      · rintro (h | h)
        · exact h.symm
        · exact absurd (List.mem_map.mpr ⟨(k, v), h, rfl⟩) hnd.1
    · have hbeq : (k == a) = false := by simpa using hka
      simp only [List.lookup, hbeq, List.mem_cons, Prod.mk.injEq, hka, false_and, false_or]
      exact ih'

theorem find_perm (m1 m2 : Stats) (hp : m1.Perm m2) (hnd : (m2.map Prod.fst).Nodup)
    (k : List Nat) : m1.find k = m2.find k := by
  have hnd1 : (m1.map Prod.fst).Nodup := (hp.map Prod.fst).nodup_iff.mpr hnd
  apply Option.ext
  intro v
  simp only [Option.mem_def]
  rw [find_eq_some_iff m1 hnd1, find_eq_some_iff m2 hnd]
  exact hp.mem_iff

theorem writeStatsBytes_length (es : Stats) : es.length ≤ (writeStatsBytes es).length := by
  induction es with
  | nil => simp
  | cons e es ih =>
    have : writeStatsBytes (e :: es) = statLine e ++ writeStatsBytes es := by
      simp [writeStatsBytes]
    rw [this, List.length_append, List.length_cons]
    have : 0 < (statLine e).length := by simp [statLine]
    omega

/-- Claim C5: for every map whose keys match the name grammar (one or more
characters of a-z or underscore, which includes `_time_`) and whose values are
non-negative 64-bit integers, whatever the order `order` in which `writeStats`
visits its entries, `loadStats` applied to an empty map and the file
`writeStats` wrote (one line `name<TAB>value<LF>` per entry, the value in decimal)
returns no error and yields a map with the same entries as the original: the
same value, or none, for every key. The empty map is included. -/
theorem snapshot_round_trip (m order : Stats) (hperm : order.Perm m)
    (hnodup : (m.map Prod.fst).Nodup)
    (hkeys : ∀ e ∈ m, e.1 ≠ [] ∧ ∀ c ∈ e.1, isNameByte c = true)
    (hvals : ∀ e ∈ m, 0 ≤ e.2 ∧ e.2 < 2 ^ 63) :
    ∃ m', loadStats (.ok (writeStatsBytes order)) [] = some (LoadResult.returned m' none) ∧
      m'.Perm m ∧ ∀ k, m'.find k = m.find k := by
  have hnd : (order.map Prod.fst).Nodup := (hperm.map Prod.fst).nodup_iff.mpr hnodup
  have hload := loadStatsLoop_written order ((writeStatsBytes order).length + 1) 0 []
    (by have := writeStatsBytes_length order; omega) (Or.inl rfl)
    (fun e he => hkeys e (hperm.subset he)) (fun e he => hvals e (hperm.subset he))
  have hall : insertAll order [] = order.reverse := by
    rw [insertAll_fresh order [] hnd (by simp)]
    simp
  have hp : (order.reverse).Perm m := (List.reverse_perm order).trans hperm
  refine ⟨order.reverse, ?_, hp, fun k => find_perm _ _ hp hnodup k⟩
  rw [← hall]
  exact hload

/-- An instance on the map `cmd_get = 160`, `_time_ = 1700000000`, written with
`_time_` first. -/
theorem snapshot_round_trip_witness :
    ∃ m', loadStats (.ok (writeStatsBytes [(ascii "_time_", 1700000000), (ascii "cmd_get", 160)]))
        [] = some (LoadResult.returned m' none) ∧
      m'.Perm [(ascii "cmd_get", 160), (ascii "_time_", 1700000000)] ∧
      ∀ k, m'.find k = Stats.find [(ascii "cmd_get", 160), (ascii "_time_", 1700000000)] k :=
  snapshot_round_trip [(ascii "cmd_get", 160), (ascii "_time_", 1700000000)]
    [(ascii "_time_", 1700000000), (ascii "cmd_get", 160)] (List.Perm.swap _ _ _)
    (by decide) (by decide) (by decide)

/-- The file of that map, and the file of the empty map, evaluated. -/
theorem snapshot_round_trip_example :
    writeStatsBytes [(ascii "_time_", 1700000000), (ascii "cmd_get", 160)] =
      ascii "_time_\t1700000000\ncmd_get\t160\n" ∧
    loadStats (.ok (ascii "_time_\t1700000000\ncmd_get\t160\n")) [] =
      some (LoadResult.returned [(ascii "cmd_get", 160), (ascii "_time_", 1700000000)] none) ∧
    loadStats (.ok (writeStatsBytes [])) [] = some (LoadResult.returned [] none) := by
  decide

/-! ## The csv reader always returns -/

theorem readSlice_length (input : List Nat) :
    (readSlice input).1.length + (readSlice input).2.length = input.length := by
  induction input with
  | nil => rfl
  | cons c cs ih =>
    by_cases h : c = 10
    · simp [readSlice, h]; omega
    · simp [readSlice, h]; omega

theorem readLine_length (input : List Nat) :
    (readLine input).1.1.length + (readLine input).2.length ≤ input.length := by
  have h := readSlice_length input
  have hd : ∀ l : List Nat, l.dropLast.length ≤ l.length := fun l => by simp
  unfold readLine
  simp only
  split_ifs with h1 h2 h2
  · have := hd (readSlice input).1
    have := hd (readSlice input).1.dropLast
    have := hd (readSlice input).1.dropLast.dropLast
    have hpos : 0 < (readSlice input).1.dropLast.length := by
      apply List.length_pos.mpr
      intro hnil
      rw [hnil] at h2
      simp at h2
    simp only [List.length_append, List.length_singleton, List.length_dropLast] at *
    omega
  · have := hd (readSlice input).1
    omega
  · have hpos : 0 < (readSlice input).1.length := by
      apply List.length_pos.mpr
      intro hnil
      rw [hnil] at h2
      simp at h2
    simp only [List.length_append, List.length_singleton, List.length_dropLast] at *
    omega
  · omega

theorem readLine_rest_lt (input : List Nat) (h : (readLine input).1.2 = false) :
    (readLine input).2.length < input.length := by
  have hl := readSlice_length input
  unfold readLine at h ⊢
  simp only at h ⊢
  have hne : (readSlice input).1 ≠ [] := by
    intro hnil
    rw [hnil] at h
    simp at h
  have := List.length_pos.mpr hne
  omega

theorem skipEmptyLines_returns (fuel : Nat) : ∀ input : List Nat, input.length < fuel →
    skipEmptyLines fuel input = some none ∨
    ∃ line rest, skipEmptyLines fuel input = some (some (line, rest)) ∧
      line.length + rest.length ≤ input.length ∧ rest.length < input.length := by
  induction fuel with
  | zero => intro input h; omega
  | succ fuel ih =>
    intro input h
    simp only [skipEmptyLines]
    by_cases heof : (readLine input).1.2 = true
    · rw [if_pos heof]; exact Or.inl rfl
    · rw [if_neg heof]
      have hfalse : (readLine input).1.2 = false := by simpa using heof
      have hlt := readLine_rest_lt input hfalse
      have hle := readLine_length input
      by_cases hemp : (readLine input).1.1.length = lengthNL (readLine input).1.1
      · rw [if_pos hemp]
        rcases ih (readLine input).2 (by omega) with h1 | ⟨line, rest, h1, h2, h3⟩
        · exact Or.inl h1
        · exact Or.inr ⟨line, rest, h1, by omega, by omega⟩
      · rw [if_neg hemp]
        exact Or.inr ⟨_, _, rfl, hle, hlt⟩

theorem indexByte_some_lt (b : Nat) (l : List Nat) (i : Nat) (h : indexByte b l = some i) :
    i < l.length := by
  induction l generalizing i with
  | nil => simp [indexByte] at h
  | cons c l ih =>
    simp only [indexByte] at h
    split at h
    · simp only [Option.some.injEq] at h
      simp [← h]
    · cases hi : indexByte b l with
      | none => simp [hi] at h
      | some j =>
        simp only [hi, Option.map_some', Option.some.injEq] at h
        have := ih j hi
        simp only [List.length_cons]
        omega

theorem parseFieldLoop_returns (fuel : Nat) : ∀ (line input : List Nat)
    (fields : List (List Nat)) (cur : Option (List Nat)),
    line.length + input.length < fuel →
    ∃ record rest, parseFieldLoop fuel line input fields cur = some (record, rest) ∧
      rest.length ≤ input.length := by
  induction fuel with
  | zero => intro line input fields cur h; omega
  | succ fuel ih =>
    intro line input fields cur h
    cases cur with
    | none =>
      simp only [parseFieldLoop]
      by_cases hq : line.head? ≠ some 34
      · rw [if_pos hq]
        cases hi : indexByte 9 line with
        | none => exact ⟨_, _, rfl, Nat.le_refl _⟩
        | some i =>
          have := indexByte_some_lt 9 line i hi
          exact ih _ input _ none (by simp only [List.length_drop]; omega)
      · rw [if_neg hq]
        have hne : line ≠ [] := by
          intro hnil
          rw [hnil] at hq
          simp at hq
        have := List.length_pos.mpr hne
        exact ih _ input _ (some []) (by simp only [List.length_drop]; omega)
    | some f =>
      simp only [parseFieldLoop]
      cases hi : indexByte 34 line with
      | some i =>
        have := indexByte_some_lt 34 line i hi
        simp only
        split_ifs
        · exact ih _ input _ _ (by simp only [List.length_drop]; omega)
        · exact ih _ input _ _ (by simp only [List.length_drop]; omega)
        · exact ⟨_, _, rfl, Nat.le_refl _⟩
        · exact ih _ input _ _ (by simp only [List.length_drop]; omega)
      | none =>
        simp only
        split_ifs with hpos
        · have hle := readLine_length input
          obtain ⟨record, rest, h1, h2⟩ :=
            ih (readLine input).1.1 (readLine input).2 fields (some (f ++ line)) (by omega)
          exact ⟨record, rest, h1, by omega⟩
        · exact ⟨_, _, rfl, Nat.le_refl _⟩

/-- The method `Read` returns on every input: the end of the file, or a record
after which less input is left. -/
theorem csvRead_returns (fuel : Nat) (r : CsvReader) (h : r.input.length < fuel) :
    ∃ record err r1, csvRead fuel r = some ((record, err), r1) ∧
      (err = some GoError.EOF ∨ r1.input.length < r.input.length) := by
  unfold csvRead
  rcases skipEmptyLines_returns fuel r.input h with h1 | ⟨line, rest, h1, h2, h3⟩
  · rw [h1]
    exact ⟨_, _, _, rfl, Or.inl rfl⟩
  · rw [h1]
    simp only
    obtain ⟨record, rest1, hp, hlen⟩ :=
      parseFieldLoop_returns (line.length + rest.length + 1) line rest [] none (by omega)
    rw [hp]
    simp only
    split_ifs
    · exact ⟨_, _, _, rfl, Or.inr (by simp only; omega)⟩
    · exact ⟨_, _, _, rfl, Or.inr (by simp only; omega)⟩
    · exact ⟨_, _, _, rfl, Or.inr (by simp only; omega)⟩

theorem loadStatsLoop_returns (fuel : Nat) : ∀ (r : CsvReader) (stats : Stats),
    r.input.length < fuel → ∃ res, loadStatsLoop fuel r stats = some res := by
  induction fuel with
  | zero => intro r stats h; omega
  | succ fuel ih =>
    intro r stats h
    obtain ⟨record, err, r1, hread, hprog⟩ := csvRead_returns (r.input.length + 1) r (by omega)
    simp only [loadStatsLoop, hread]
    by_cases heof : err = some GoError.EOF
    · rw [if_pos heof]; exact ⟨_, rfl⟩
    · rw [if_neg heof]
      by_cases herr : err ≠ none
      · rw [if_pos herr]; exact ⟨_, rfl⟩
      · rw [if_neg herr]
        have hlt : r1.input.length < r.input.length := by
          rcases hprog with h1 | h1
          · exact absurd h1 heof
          · exact h1
        match record with
        | [] => exact ⟨_, rfl⟩
        | [_] => exact ⟨_, rfl⟩
        | f0 :: f1 :: more =>
          simp only
          rcases hp : ParseInt f1 0 64 with ⟨i, e⟩
          cases e with
          | some e => exact ⟨_, rfl⟩
          | none => exact ih r1 _ (by omega)

/-- The model of `loadStats` gives an outcome for every file: the loops of the csv
reader never run out of fuel. -/
theorem loadStats_returns (file : Except GoError (List Nat)) (stats : Stats) :
    ∃ res, loadStats file stats = some res := by
  cases file with
  | error e => exact ⟨_, rfl⟩
  | ok content => exact loadStatsLoop_returns _ _ stats (by simp)

/-- Claim C10 fails on the code: on a file whose first line has no tab the record
has one field and `record[1]` is out of range. -/
theorem loadStats_index_out_of_range :
    loadStats (.ok (ascii "abc\n")) [] = some (LoadResult.indexPanic [] [ascii "abc"]) := by
  decide

/-! ## The orchestrator -/

/-- Claim C3, as stated, fails: on a first run where everything succeeds the status
handed to `os.Exit` is `1`, not `0`. -/
theorem bootstrap_status_is_one :
    _main false [] bootstrapWorld =
      some (Run.exited []
        (some [(ascii "_time_", 1700000060), (ascii "maxconns", 1024),
          (ascii "cmd_get", 160)]) 1) ∧
    ∀ out saved, _main false [] bootstrapWorld ≠ some (Run.exited out saved 0) := by
  have h : _main false [] bootstrapWorld =
      some (Run.exited []
        (some [(ascii "_time_", 1700000060), (ascii "maxconns", 1024),
          (ascii "cmd_get", 160)]) 1) := by
    decide
  refine ⟨h, ?_⟩
  intro out saved
  rw [h]
  simp

/-- Claim C3, amended: when the current user is found, connecting and both stat
fetches succeed, the snapshot file does not exist and creating it succeeds, the
run writes the current snapshot with its `_time_` entry set to the time of the run,
prints no line on standard output, and the status returned by `memcachedStats` and
passed to `os.Exit` is `1`. -/
theorem bootstrap_run (w : World) (stats1 stats2 : Stats) (reads1 reads2 : List ReadResult)
    (hdial : w.dialErr = none) (hw1 : w.writeErr1 = none)
    (hf1 : fetchStats w.reads [] = some ((stats1, none), reads1))
    (hw2 : w.writeErr2 = none)
    (hf2 : fetchStats reads1 stats1 = some ((stats2, none), reads2))
    (uid : List Nat) (huser : w.currentUser = some uid)
    (habsent : w.snapshot = none) (hcreate : w.createErr = none) :
    memcachedStats w = some (Run.exited [] (some (stats2.set (ascii "_time_") w.now)) 1) ∧
    _main false [] w = memcachedStats w ∧
    (stats2.set (ascii "_time_") w.now).find (ascii "_time_") = some w.now := by
  refine ⟨?_, ?_, ?_⟩
  · simp [memcachedStats, hdial, hw1, hf1, hw2, hf2, compareAndSave, huser, habsent, hcreate,
      writeStats]
  · simp [_main]
  · simp [Stats.set, Stats.find, List.lookup]

/-- An instance on the first run `bootstrapWorld`. -/
theorem bootstrap_run_witness :
    memcachedStats bootstrapWorld =
      some (Run.exited []
        (some (Stats.set [(ascii "maxconns", 1024), (ascii "cmd_get", 160)] (ascii "_time_")
          bootstrapWorld.now)) 1) ∧
    _main false [] bootstrapWorld = memcachedStats bootstrapWorld ∧
    (Stats.set [(ascii "maxconns", 1024), (ascii "cmd_get", 160)] (ascii "_time_")
      bootstrapWorld.now).find (ascii "_time_") = some bootstrapWorld.now :=
  bootstrap_run bootstrapWorld [(ascii "cmd_get", 160)]
    [(ascii "maxconns", 1024), (ascii "cmd_get", 160)]
    [{ data := ascii "STAT maxconns 1024\r\nEND\r\n", err := none }] []
    (by decide) (by decide) (by decide) (by decide) (by decide) (ascii "1000") (by decide) rfl
    (by decide)

theorem get_set_self (m : Stats) (k : List Nat) (v : Int) : (m.set k v).get k = v := by
  simp [Stats.get, find_set_self]

theorem get_set_ne (m : Stats) (k k' : List Nat) (v : Int) (h : k' ≠ k) :
    (m.set k v).get k' = m.get k' := by
  simp [Stats.get, find_set_ne m k k' v h]

/-- A run that finds a snapshot: both fetches succeed and `loadStats` returns `prev`. -/
theorem memcachedStats_compare (w : World) (stats1 stats2 prev : Stats)
    (reads1 reads2 : List ReadResult) (file : Except GoError (List Nat))
    (hdial : w.dialErr = none) (hw1 : w.writeErr1 = none)
    (hf1 : fetchStats w.reads [] = some ((stats1, none), reads1))
    (hw2 : w.writeErr2 = none)
    (hf2 : fetchStats reads1 stats1 = some ((stats2, none), reads2))
    (uid : List Nat) (huser : w.currentUser = some uid)
    (hsnap : w.snapshot = some file)
    (hload : loadStats file [] = some (LoadResult.returned prev none)) :
    ∃ saved, memcachedStats w =
      some (Run.exited (metricLines (stats2.set (ascii "_time_") w.now) prev w.now w.rangeOrder)
        saved 0) := by
  cases hc : w.createErr with
  | none =>
    exact ⟨some (stats2.set (ascii "_time_") w.now), by
      simp [memcachedStats, hdial, hw1, hf1, hw2, hf2, compareAndSave, huser, hsnap, hload,
        writeStats, hc]⟩
  | some e =>
    exact ⟨none, by
      simp [memcachedStats, hdial, hw1, hf1, hw2, hf2, compareAndSave, huser, hsnap, hload,
        writeStats, hc]⟩

theorem named_hitRateLine (stats prev : Stats) (now : Int) (n : String) :
    Out.named n (hitRateLine stats prev now) = ("memcached-lite.cache-hit.rate" == n) := by
  unfold hitRateLine
  simp only
  split <;> rfl

theorem named_rateLine (stats prev : Stats) (period now : Int) (e : String × List Nat)
    (n : String) :
    Out.named n (rateLine stats prev period now e) = ("memcached-lite." ++ e.1 == n) := rfl


/-- Among the lines of the four turns of the loop, taken in the order of the source,
the metric of an entry has exactly the line of its turn. -/
theorem rateLines_filter (cur prev : Stats) (period now : Int) (e : String × List Nat)
    (he : e ∈ [("req-per-sec.get", ascii "cmd_get"), ("req-per-sec.set", ascii "cmd_set"),
       ("eviction-per-sec.total", ascii "evictions"),
       ("eviction-per-sec.unfetched", ascii "evicted_unfetched")]) :
    ([("req-per-sec.get", ascii "cmd_get"), ("req-per-sec.set", ascii "cmd_set"),
       ("eviction-per-sec.total", ascii "evictions"),
       ("eviction-per-sec.unfetched", ascii "evicted_unfetched")].map
        (rateLine cur prev period now)).filter (Out.named ("memcached-lite." ++ e.1)) =
      [rateLine cur prev period now e] := by
  simp only [List.mem_cons, List.mem_singleton, List.not_mem_nil, or_false] at he
  rcases he with rfl | rfl | rfl | rfl <;> rfl

/-- The lines printed after the loop hold no line of a name other than theirs. -/
theorem tailLines_filter (cur prev : Stats) (now : Int) (n : String)
    (h1 : ("memcached-lite.cache-hit.rate" == n) = false)
    (h2 : ("memcached-lite.connections.current" == n) = false)
    (h3 : ("memcached-lite.connections.max" == n) = false) :
    [hitRateLine cur prev now,
      Out.metric "memcached-lite.connections.current"
        (MetricValue.int (cur.get (ascii "curr_connections"))) now,
      Out.metric "memcached-lite.connections.max"
        (MetricValue.int (cur.get (ascii "maxconns"))) now].filter (Out.named n) = [] := by
  rw [List.filter_cons_of_neg (by rw [named_hitRateLine, h1]; simp),
    List.filter_cons_of_neg (by simp [Out.named, h2]),
    List.filter_cons_of_neg (by simp [Out.named, h3])]
  rfl

/-- Among the lines printed after the comparison, the metric of an entry of the map
`m` has exactly one line, the one of its turn of the loop, when the loop visits the
four entries in some order. -/
theorem metricLines_filter (cur prev : Stats) (now : Int) (order : List (String × List Nat))
    (e : String × List Nat)
    (horder : order.Perm
      [("req-per-sec.get", ascii "cmd_get"), ("req-per-sec.set", ascii "cmd_set"),
       ("eviction-per-sec.total", ascii "evictions"),
       ("eviction-per-sec.unfetched", ascii "evicted_unfetched")])
    (he : e ∈ [("req-per-sec.get", ascii "cmd_get"), ("req-per-sec.set", ascii "cmd_set"),
       ("eviction-per-sec.total", ascii "evictions"),
       ("eviction-per-sec.unfetched", ascii "evicted_unfetched")]) :
    (metricLines cur prev now order).filter (Out.named ("memcached-lite." ++ e.1)) =
      [rateLine cur prev (sub64 (cur.get (ascii "_time_")) (prev.get (ascii "_time_"))) now e] := by
  have hperm := ((horder.map (rateLine cur prev
      (sub64 (cur.get (ascii "_time_")) (prev.get (ascii "_time_"))) now)).filter
        (Out.named ("memcached-lite." ++ e.1)))
  rw [rateLines_filter cur prev _ now e he] at hperm
  have hmid := List.perm_singleton.mp hperm
  unfold metricLines
  simp only [List.filter_append]
  rw [hmid]
  simp only [List.mem_cons, List.mem_singleton, List.not_mem_nil, or_false] at he
  rcases he with rfl | rfl | rfl | rfl
  · rw [tailLines_filter cur prev now ("memcached-lite." ++ "req-per-sec.get") rfl rfl rfl]
    rfl
  · rw [tailLines_filter cur prev now ("memcached-lite." ++ "req-per-sec.set") rfl rfl rfl]
    rfl
  · rw [tailLines_filter cur prev now ("memcached-lite." ++ "eviction-per-sec.total") rfl rfl
      rfl]
    rfl
  · rw [tailLines_filter cur prev now ("memcached-lite." ++ "eviction-per-sec.unfetched") rfl
      rfl rfl]
    rfl

set_option maxRecDepth 100000 in
/-- Claim C6, as stated, fails: with `cmd_set = 5` now and `-9223372036854775807` in
the previous snapshot, 60 seconds old, the difference is `9223372036854775812 >= 0`,
so the claim has the value `9223372036854775812 / 60`; the `int64` subtraction of
the code wraps to a negative number, the reset correction takes the current value,
and the one line of `req-per-sec.set` has the value `5 / 60`. -/
theorem rate_delta_wraps :
    loadStats (.ok (ascii "cmd_set\t-9223372036854775807\n_time_\t1700000000\n")) [] =
      some (LoadResult.returned wrapPrev none) ∧
    memcachedStats wrapWorld =
      some (Run.exited (metricLines wrapCur wrapPrev 1700000060 rateTable) (some wrapCur) 0) ∧
    0 < specPeriod wrapCur wrapPrev ∧
    specDelta wrapCur wrapPrev (ascii "cmd_set") = 9223372036854775812 ∧
    (metricLines wrapCur wrapPrev 1700000060 rateTable).filter
        (Out.named "memcached-lite.req-per-sec.set") =
      [Out.metric "memcached-lite.req-per-sec.set" (MetricValue.quot 5 60) 1700000060] ∧
    (MetricValue.quot 5 60).toRat ≠
      (specDelta wrapCur wrapPrev (ascii "cmd_set") : ℚ) /
        (specPeriod wrapCur wrapPrev : ℚ) := by
  refine ⟨by decide, by decide, by decide, by decide, by decide, ?_⟩
  have h1 : specDelta wrapCur wrapPrev (ascii "cmd_set") = 9223372036854775812 := by decide
  have h2 : specPeriod wrapCur wrapPrev = 60 := by decide
  rw [h1, h2]
  norm_num [MetricValue.toRat]

/-- The `int64` subtraction of Go is the exact difference when that fits. -/
theorem sub64_of_fit (a b : Int) (h1 : -2 ^ 63 ≤ a - b) (h2 : a - b < 2 ^ 63) :
    sub64 a b = a - b := by
  unfold sub64
  exact wrap64_of_range _ h1 h2

/-- The `gap` of the code is the delta of the specification when the difference fits
in an `int64`. -/
theorem gapOf_eq_specDelta (cur prev : Stats) (key : List Nat)
    (h1 : -2 ^ 63 ≤ cur.get key - prev.get key) (h2 : cur.get key - prev.get key < 2 ^ 63) :
    gapOf cur prev key = specDelta cur prev key := by
  unfold gapOf specDelta
  rw [sub64_of_fit _ _ h1 h2]
  by_cases h : 0 ≤ cur.get key - prev.get key
  · rw [if_pos h, if_neg (by omega)]
  · rw [if_neg h, if_pos (by omega)]

/-- Claim C6, amended: in a run of `memcachedStats` that reaches the comparison (the
current user is found, both fetches succeed, the previous snapshot `prev` is
loaded), with `cur` the current snapshot, if the differences
`cur[_time_] - prev[_time_]` and `cur[key] - prev[key]` fit in a signed 64-bit
integer (as they do when the values are non-negative) and
`period = cur[_time_] - prev[_time_] > 0`, then for each of the four rate metrics
(`req-per-sec.get`: `cmd_get`, `req-per-sec.set`: `cmd_set`, `eviction-per-sec.total`:
`evictions`, `eviction-per-sec.unfetched`: `evicted_unfetched`), whatever the order
in which the loop visits them, exactly one line of that metric is printed, and its
value is the quotient `delta / period`, a non-negative number, where
`delta = cur[key] - prev[key]` if that difference is `>= 0` and `delta = cur[key]`
otherwise (a missing key reads as `0`). The quotient is printed with `%f` after
conversion of both operands to `float64`. -/
theorem rate_metric_line (w : World) (stats1 stats2 cur prev : Stats)
    (reads1 reads2 : List ReadResult) (file : Except GoError (List Nat))
    (hdial : w.dialErr = none) (hw1 : w.writeErr1 = none)
    (hf1 : fetchStats w.reads [] = some ((stats1, none), reads1))
    (hw2 : w.writeErr2 = none)
    (hf2 : fetchStats reads1 stats1 = some ((stats2, none), reads2))
    (uid : List Nat) (huser : w.currentUser = some uid)
    (hsnap : w.snapshot = some file)
    (hload : loadStats file [] = some (LoadResult.returned prev none))
    (hcur : cur = stats2.set (ascii "_time_") w.now)
    (horder : w.rangeOrder.Perm
      [("req-per-sec.get", ascii "cmd_get"), ("req-per-sec.set", ascii "cmd_set"),
       ("eviction-per-sec.total", ascii "evictions"),
       ("eviction-per-sec.unfetched", ascii "evicted_unfetched")])
    (hfit : ∀ key ∈ [ascii "cmd_get", ascii "cmd_set", ascii "evictions",
        ascii "evicted_unfetched"],
      -2 ^ 63 ≤ cur.get key - prev.get key ∧ cur.get key - prev.get key < 2 ^ 63)
    (hfitT : specPeriod cur prev < 2 ^ 63)
    (hperiod : 0 < specPeriod cur prev) :
    ∃ lines saved, memcachedStats w = some (Run.exited lines saved 0) ∧
      ∀ e ∈ [("req-per-sec.get", ascii "cmd_get"), ("req-per-sec.set", ascii "cmd_set"),
          ("eviction-per-sec.total", ascii "evictions"),
          ("eviction-per-sec.unfetched", ascii "evicted_unfetched")],
        lines.filter (Out.named ("memcached-lite." ++ e.1)) =
          [Out.metric ("memcached-lite." ++ e.1)
            (MetricValue.quot (specDelta cur prev e.2) (specPeriod cur prev))
            (cur.get (ascii "_time_"))] ∧
        (MetricValue.quot (specDelta cur prev e.2) (specPeriod cur prev)).toRat =
          (specDelta cur prev e.2 : ℚ) / (specPeriod cur prev : ℚ) ∧
        0 ≤ (MetricValue.quot (specDelta cur prev e.2) (specPeriod cur prev)).toRat := by
  obtain ⟨saved, hrun⟩ :=
    memcachedStats_compare w stats1 stats2 prev reads1 reads2 file hdial hw1 hf1 hw2 hf2 uid huser
      hsnap hload
  refine ⟨_, saved, hrun, ?_⟩
  rw [← hcur]
  intro e he
  have hnow : cur.get (ascii "_time_") = w.now := by rw [hcur]; exact get_set_self _ _ _
  have hkey : e.2 ∈ [ascii "cmd_get", ascii "cmd_set", ascii "evictions",
      ascii "evicted_unfetched"] := by
    simp only [List.mem_cons, List.mem_singleton, List.not_mem_nil, or_false] at he
    rcases he with rfl | rfl | rfl | rfl <;> simp
  have hne : e.2 ≠ ascii "_time_" := by
    simp only [List.mem_cons, List.mem_singleton, List.not_mem_nil, or_false] at he
    rcases he with rfl | rfl | rfl | rfl <;> decide
  have hc0 : 0 ≤ cur.get e.2 := by
    have hr1 := fetchStats_inRange w.reads reads1 [] stats1 none inRange_nil hf1
    have hr2 := fetchStats_inRange reads1 reads2 stats1 stats2 none hr1 hf2
    rw [hcur, get_set_ne stats2 (ascii "_time_") e.2 w.now hne]
    exact (hr2 e.2).1
  have hper : sub64 (cur.get (ascii "_time_")) (prev.get (ascii "_time_")) =
      specPeriod cur prev := by
    unfold specPeriod at hfitT hperiod ⊢
    exact sub64_of_fit _ _ (by omega) hfitT
  have hd0 : 0 ≤ specDelta cur prev e.2 := by
    unfold specDelta
    split <;> omega
  refine ⟨?_, rfl, ?_⟩
  · rw [metricLines_filter cur prev w.now w.rangeOrder e horder he, hper]
    unfold rateLine
    rw [gapOf_eq_specDelta cur prev e.2 (hfit e.2 hkey).1 (hfit e.2 hkey).2, hnow]
  · simp only [MetricValue.toRat]
    have hq : (0 : ℚ) ≤ ((specPeriod cur prev : Int) : ℚ) := by exact_mod_cast hperiod.le
    have hn : (0 : ℚ) ≤ ((specDelta cur prev e.2 : Int) : ℚ) := by exact_mod_cast hd0
    exact div_nonneg hn hq

set_option maxRecDepth 100000 in
/-- An instance on the run `exampleWorld`, for the four metrics. -/
theorem rate_metric_line_witness :
    ∃ lines saved, memcachedStats exampleWorld = some (Run.exited lines saved 0) ∧
      ∀ e ∈ [("req-per-sec.get", ascii "cmd_get"), ("req-per-sec.set", ascii "cmd_set"),
          ("eviction-per-sec.total", ascii "evictions"),
          ("eviction-per-sec.unfetched", ascii "evicted_unfetched")],
        lines.filter (Out.named ("memcached-lite." ++ e.1)) =
          [Out.metric ("memcached-lite." ++ e.1)
            (MetricValue.quot (specDelta exampleCur examplePrev e.2)
              (specPeriod exampleCur examplePrev))
            (exampleCur.get (ascii "_time_"))] ∧
        (MetricValue.quot (specDelta exampleCur examplePrev e.2)
            (specPeriod exampleCur examplePrev)).toRat =
          (specDelta exampleCur examplePrev e.2 : ℚ) /
            (specPeriod exampleCur examplePrev : ℚ) ∧
        0 ≤ (MetricValue.quot (specDelta exampleCur examplePrev e.2)
            (specPeriod exampleCur examplePrev)).toRat :=
  rate_metric_line exampleWorld
    [(ascii "cmd_get", 160), (ascii "limit_maxbytes", 2000), (ascii "bytes", 1000)]
    [(ascii "maxconns", 1024), (ascii "cmd_get", 160), (ascii "limit_maxbytes", 2000),
      (ascii "bytes", 1000)]
    exampleCur examplePrev
    [{ data := ascii "STAT maxconns 1024\r\nEND\r\n", err := none }] []
    (.ok (ascii "cmd_get\t100\n_time_\t1700000000\n"))
    (by decide) (by decide) (by decide) (by decide) (by decide) (ascii "1000") (by decide) rfl
    (by decide) (by decide) (List.Perm.refl _) (by decide) (by decide) (by decide)

/-- The examples of the specification: the counter going from 100 to 160 in 60
seconds gives the quotient `60 / 60 = 1`; a counter going from 50 to 10 gives the
delta `10`, in the code and in the specification. -/
theorem rate_examples :
    specDelta exampleCur examplePrev (ascii "cmd_get") = 60 ∧
    specPeriod exampleCur examplePrev = 60 ∧
    (MetricValue.quot (specDelta exampleCur examplePrev (ascii "cmd_get"))
      (specPeriod exampleCur examplePrev)).toRat = 1 ∧
    gapOf exampleCur examplePrev (ascii "cmd_get") = 60 ∧
    gapOf [(ascii "cmd_get", 10)] [(ascii "cmd_get", 50)] (ascii "cmd_get") = 10 ∧
    specDelta [(ascii "cmd_get", 10)] [(ascii "cmd_get", 50)] (ascii "cmd_get") = 10 := by
  have h1 : specDelta exampleCur examplePrev (ascii "cmd_get") = 60 := by decide
  have h2 : specPeriod exampleCur examplePrev = 60 := by decide
  refine ⟨h1, h2, ?_, by decide, by decide, by decide⟩
  rw [h1, h2]
  norm_num [MetricValue.toRat]

/-- Where the products and sums stay in the `int64` range, the line of the hit rate
has the operands `hits * 100` and `hits + misses`, and their quotient lies between
`0` and `100`. -/
theorem hitRateLine_in_range (cur prev : Stats) (now hits misses : Int)
    (hh : gapOf cur prev (ascii "get_hits") = hits)
    (hm : gapOf cur prev (ascii "get_misses") = misses)
    (h0 : 0 ≤ hits) (h1 : 0 ≤ misses) (h2 : hits * 100 < 2 ^ 63)
    (h3 : hits + misses < 2 ^ 63) (hpos : 0 < hits + misses) :
    hitRateLine cur prev now =
      Out.metric "memcached-lite.cache-hit.rate"
        (MetricValue.quot (hits * 100) (hits + misses)) now ∧
    0 ≤ (MetricValue.quot (hits * 100) (hits + misses)).toRat ∧
    (MetricValue.quot (hits * 100) (hits + misses)).toRat ≤ 100 := by
  have ha : add64 hits misses = hits + misses := by
    unfold add64
    exact wrap64_of_range _ (by omega) h3
  have hmul : mul64 hits 100 = hits * 100 := by
    unfold mul64
    exact wrap64_of_range _ (by omega) h2
  refine ⟨?_, ?_, ?_⟩
  · unfold hitRateLine
    simp only [hh, hm, ha, hmul]
    rw [if_neg (by omega)]
  · simp only [MetricValue.toRat]
    have hq : (0 : ℚ) < ((hits + misses : Int) : ℚ) := by exact_mod_cast hpos
    have hn : (0 : ℚ) ≤ ((hits * 100 : Int) : ℚ) := by
      have : (0 : Int) ≤ hits * 100 := by omega
      exact_mod_cast this
    exact div_nonneg hn hq.le
  · simp only [MetricValue.toRat]
    have hq : (0 : ℚ) < ((hits + misses : Int) : ℚ) := by exact_mod_cast hpos
    rw [div_le_iff₀ hq]
    have : hits * 100 ≤ 100 * (hits + misses) := by omega
    exact_mod_cast this

set_option maxRecDepth 100000 in
/-- Claim C7 fails on the code: with `hits = 10^17` and `misses = 0` the product
`hits*100` wraps around in `int64`, so the line of the hit rate prints the quotient
of `-8446744073709551616` by `10^17`, a negative number, where the claim has `100`. -/
theorem hit_rate_overflow :
    Out.metric "memcached-lite.cache-hit.rate"
        (MetricValue.quot (-8446744073709551616) 100000000000000000) 1700000060 ∈
      ((memcachedStats overflowWorld).map Run.stdout).getD [] ∧
    (MetricValue.quot (-8446744073709551616) 100000000000000000).toRat < 0 := by
  refine ⟨by decide, ?_⟩
  norm_num [MetricValue.toRat]

end MemcachedLite
